import Mathlib

/-!
# Alternating disks (`disks.hpp`)

A shallow embedding of `disk_color`, `disk_state`, `sorted_disks`,
`sort_left_to_right` and `sort_lawnmower`.

Conventions of the embedding.

* `size_t` is a 64-bit unsigned integer, `int` a 32-bit signed integer and
  `unsigned` a 32-bit unsigned integer (LP64).  Values are `Nat`/`Int`; every
  `size_t` operation that can wrap is written with an explicit `% SIZE_MOD`.
* A failed `assert` ends the run.  A `const` method that asserts returns an
  `Option`; the mutating method `swap` returns `Except`, whose `error` carries
  the row as it is when the assertion fails.
* The loops of the two sorting functions take a `fuel` bound on the number
  of times a loop condition is evaluated; a run that needs more is
  `out_of_fuel`.  The outcome of a run records the working copy and the
  counter at the point where the run stopped.
* The `int` variables of `sort_lawnmower` (`x`, `y`, `z`, `swapCounter`) are
  incremented and decremented as integers: signed overflow is undefined in
  the source and is reached by no run considered here.
* `operator==` returns an `Option Bool`: `none` is a read past the end of the
  right-hand row, which `std::equal` leaves undefined.
* Memory exhaustion is not modelled.
-/

namespace AlternatingDisks

/-! ## Machine integers -/

/-- Number of values of `size_t`. -/
def SIZE_MOD : Nat := 2 ^ 64

/-- Number of values of `int` and of `unsigned`. -/
def INT_MOD : Nat := 2 ^ 32

/-- Conversion `size_t → int` (two's complement, modular). -/
def to_int (n : Nat) : Int := (((n + 2 ^ 31) % INT_MOD : Nat) : Int) - 2 ^ 31

/-- Conversion `int → size_t` (modular). -/
def to_size (i : Int) : Nat := (i % (SIZE_MOD : Int)).toNat

/-- Conversion `int → unsigned` (modular). -/
def to_unsigned (i : Int) : Nat := (i % (INT_MOD : Int)).toNat

/-! ## `disk_color` and `disk_state` -/

/-- State of one disk: `enum disk_color { DISK_LIGHT, DISK_DARK }`. -/
inductive disk_color where
  | DISK_LIGHT
  | DISK_DARK
deriving DecidableEq, Repr

/-- Underlying integer value of an enumerator, used by `>` on `disk_color`. -/
def disk_color.val : disk_color → Nat
  | .DISK_LIGHT => 0
  | .DISK_DARK => 1

/-- Row of disks: the private member `std::vector<disk_color> _colors`. -/
structure disk_state where
  _colors : List disk_color
deriving DecidableEq, Repr

namespace disk_state

/-- Method `total_count`: `_colors.size()`. -/
def total_count (t : disk_state) : Nat := t._colors.length

/-- Method `dark_count`: `total_count() / 2`. -/
def dark_count (t : disk_state) : Nat := t.total_count / 2

/-- Method `light_count`: `dark_count()`. -/
def light_count (t : disk_state) : Nat := t.dark_count

/-- Method `is_index`: `i < total_count()`. -/
def is_index (t : disk_state) (i : Nat) : Bool := decide (i < t.total_count)

/-- Method `get`: `assert(is_index(index)); return _colors[index];`.
`none` is the failed assertion. -/
def get (t : disk_state) (index : Nat) : Option disk_color :=
  if t.is_index index then t._colors[index]? else none

/-- Method `swap`: both assertions, then `std::swap` of the two cells.
`right_index` is `left_index + 1` in `size_t`.  `error` is a failed assertion
and carries the row at that point. -/
def swap (t : disk_state) (left_index : Nat) : Except disk_state disk_state :=
  if t.is_index left_index then
    let right_index := (left_index + 1) % SIZE_MOD
    if t.is_index right_index then
      match t._colors[left_index]?, t._colors[right_index]? with
      | some a, some b => .ok ⟨(t._colors.set left_index b).set right_index a⟩
      | _, _ => .error t
    else .error t
  else .error t

/-- The loop of the constructor,
`for (size_t i = 1; i < _colors.size(); i += 2) _colors[i] = DISK_DARK;`,
by recursion on a bound on the number of iterations left. -/
def ctor_loop : Nat → Nat → List disk_color → List disk_color
  | 0, _, colors => colors
  | n + 1, i, colors =>
    if i < colors.length then
      ctor_loop n ((i + 2) % SIZE_MOD) (colors.set i .DISK_DARK)
    else colors

/-- Constructor `disk_state(size_t light_count)`.  The vector has
`light_count * 2` cells (product in `size_t`), all light; then
`assert(dark_count() > 0)`; then the loop darkens the odd cells.
`none` is the failed assertion.  The loop runs at most `size() / 2` times,
so the bound `size()` is never exhausted. -/
def create (light_count : Nat) : Option disk_state :=
  let colors := List.replicate ((light_count * 2) % SIZE_MOD) disk_color.DISK_LIGHT
  if 0 < (disk_state.mk colors).dark_count then
    some ⟨ctor_loop colors.length 1 colors⟩
  else none

/-- The loop of `is_alternating`, from index `x`, by recursion on the
number of indices left (`total_count() - x`). -/
def is_alternating_loop (t : disk_state) : Nat → Nat → Bool
  | 0, _ => true
  | n + 1, x =>
    if x < t._colors.length then
      if x % 2 = 0 then
        if t._colors[x]? = some .DISK_DARK then false
        else is_alternating_loop t n (x + 1)
      else
        if t._colors[x]? = some .DISK_LIGHT then false
        else is_alternating_loop t n (x + 1)
    else true

/-- Method `is_alternating`. -/
def is_alternating (t : disk_state) : Bool :=
  is_alternating_loop t t._colors.length 0

/-- The loop of `is_sorted`, from index `x`, by recursion on the number of
indices left (`total_count() - x`). -/
def is_sorted_loop (t : disk_state) : Nat → Nat → Bool
  | 0, _ => true
  | n + 1, x =>
    if x < t.total_count then
      if x < t.total_count / 2 then
        if t._colors[x]? = some .DISK_DARK then false
        else is_sorted_loop t n (x + 1)
      else
        if t._colors[x]? = some .DISK_LIGHT then false
        else is_sorted_loop t n (x + 1)
    else true

/-- Method `is_sorted`. -/
def is_sorted (t : disk_state) : Bool :=
  is_sorted_loop t t.total_count 0

end disk_state

/-! ## `sorted_disks` -/

/-- Output of a sorting function: the final row and the number of swaps. -/
structure sorted_disks where
  _after : disk_state
  _swap_count : Nat
deriving DecidableEq, Repr

/-- Method `after`. -/
def sorted_disks.after (r : sorted_disks) : disk_state := r._after

/-- Method `swap_count`. -/
def sorted_disks.swap_count (r : sorted_disks) : Nat := r._swap_count

/-! ## Runs of the sorting functions -/

/-- Local variables of a sorting function that outlive an iteration: the
working copy `temporary` and the counter `swapCounter` (an `int`). -/
structure sort_state where
  temporary : disk_state
  swapCounter : Int
deriving DecidableEq, Repr

/-- Outcome of running a piece of a sorting function: normal completion with
a value, a failed assertion, or more loop iterations than the fuel allows. The
last two carry the local state at the point where the run stopped. -/
inductive Run (α : Type) where
  | done (a : α)
  | assert_failed (s : sort_state)
  | out_of_fuel (s : sort_state)
deriving DecidableEq, Repr

/-- Sequencing of runs. -/
def Run.bind {α β : Type} (r : Run α) (f : α → Run β) : Run β :=
  match r with
  | .done a => f a
  | .assert_failed s => .assert_failed s
  | .out_of_fuel s => .out_of_fuel s

/-- Whether the run completed normally. -/
def Run.is_done {α : Type} : Run α → Bool
  | .done _ => true
  | _ => false

/-- Whether the run ended in a failed assertion. -/
def Run.is_assert_failed {α : Type} : Run α → Bool
  | .assert_failed _ => true
  | _ => false

/-- The row observed at the end of a run of a sorting function: `after()` of
the value returned, or the working copy where the run stopped. -/
def Run.observed_row : Run sorted_disks → disk_state
  | .done r => r.after
  | .assert_failed s => s.temporary
  | .out_of_fuel s => s.temporary

/-- The row at the end of a run of a piece of a sorting function: the row of
the value on normal completion (read by `row`), the working copy where the
run stopped otherwise. -/
def Run.final_row {α : Type} (row : α → disk_state) : Run α → disk_state
  | .done a => row a
  | .assert_failed s => s.temporary
  | .out_of_fuel s => s.temporary

/-- The statement shared by all inner loops,
`if (temporary.get(i) > temporary.get(j)) { temporary.swap(i); swapCounter++; }`. -/
def compare_swap (s : sort_state) (i j : Nat) : Run sort_state :=
  match s.temporary.get i, s.temporary.get j with
  | some a, some b =>
    if a.val > b.val then
      match s.temporary.swap i with
      | .ok t => .done ⟨t, s.swapCounter + 1⟩
      | .error t => .assert_failed ⟨t, s.swapCounter⟩
    else .done s
  | _, _ => .assert_failed s

/-! ## `sort_left_to_right` -/

/-- Inner loop of `sort_left_to_right`,
`for (size_t y = x; y < temporary.total_count()-1; x++) { ... }`:
the condition tests `y`, the increment is applied to `x`.  The state of the
loop is `x`, `y` and the local state; on exit the value of `x` is returned
with the local state. -/
def ltr_inner : Nat → Nat → Nat → sort_state → Run (Nat × sort_state)
  | 0, _, _, s => .out_of_fuel s
  | fuel + 1, x, y, s =>
    if y < (s.temporary.total_count + SIZE_MOD - 1) % SIZE_MOD then
      (compare_swap s y ((y + 1) % SIZE_MOD)).bind fun s1 =>
        ltr_inner fuel ((x + 1) % SIZE_MOD) y s1
    else .done (x, s)

/-- Outer loop of `sort_left_to_right`,
`for (size_t x = 0; x < temporary.total_count(); x++) { inner loop }`.
The first argument is the fuel of each inner loop, the second the fuel of
this loop. -/
def ltr_outer (fuel : Nat) : Nat → Nat → sort_state → Run sort_state
  | 0, _, s => .out_of_fuel s
  | n + 1, x, s =>
    if x < s.temporary.total_count then
      (ltr_inner fuel x x s).bind fun p =>
        ltr_outer fuel n ((p.1 + 1) % SIZE_MOD) p.2
    else .done s

/-- Function `sort_left_to_right`. -/
def sort_left_to_right (fuel : Nat) (before : disk_state) : Run sorted_disks :=
  (ltr_outer fuel fuel 0 ⟨before, 0⟩).bind fun s =>
    .done ⟨s.temporary, to_unsigned s.swapCounter⟩

/-! ## `sort_lawnmower` -/

/-- Forward loop of `sort_lawnmower`,
`for (int y = 0; y < (int) temporary.total_count()-1; y++) { ... }`. -/
def lawn_forward : Nat → Int → sort_state → Run sort_state
  | 0, _, s => .out_of_fuel s
  | fuel + 1, y, s =>
    if y < to_int s.temporary.total_count - 1 then
      (compare_swap s (to_size y) (to_size (y + 1))).bind fun s1 =>
        lawn_forward fuel (y + 1) s1
    else .done s

/-- Backward loop of `sort_lawnmower`,
`for (int z = temporary.total_count(); z > 0; z--)` with the body
`if (temporary.get(z-1) > temporary.get(z)) { temporary.swap(z-1); swapCounter++; }`. -/
def lawn_backward : Nat → Int → sort_state → Run sort_state
  | 0, _, s => .out_of_fuel s
  | fuel + 1, z, s =>
    if z > 0 then
      (compare_swap s (to_size (z - 1)) (to_size z)).bind fun s1 =>
        lawn_backward fuel (z - 1) s1
    else .done s

/-- Outer loop of `sort_lawnmower`,
`for (int x = 0; x < (int) temporary.total_count()/2; x++)`: a forward loop
from `y = 0`, then a backward loop from `z = total_count()`. -/
def lawn_outer (fuel : Nat) : Nat → Int → sort_state → Run sort_state
  | 0, _, s => .out_of_fuel s
  | n + 1, x, s =>
    if x < (to_int s.temporary.total_count).tdiv 2 then
      (lawn_forward fuel 0 s).bind fun s1 =>
        (lawn_backward fuel (to_int s1.temporary.total_count) s1).bind fun s2 =>
          lawn_outer fuel n (x + 1) s2
    else .done s

/-- Function `sort_lawnmower`. -/
def sort_lawnmower (fuel : Nat) (before : disk_state) : Run sorted_disks :=
  (lawn_outer fuel fuel 0 ⟨before, 0⟩).bind fun s =>
    .done ⟨s.temporary, to_unsigned s.swapCounter⟩

/-! ## `operator==` and sequences of swaps -/

/-- The three-iterator `std::equal(first1, last1, first2)` of the standard
library: it walks the first range and compares each cell with the cell at
the same distance from `first2`, answering `false` at the first difference and
`true` at the end of the first range. `none` is a read past the end of the
second range, which the library leaves undefined. -/
def std_equal : List disk_color → List disk_color → Option Bool
  | [], _ => some true
  | _ :: _, [] => none
  | x :: xs, y :: ys => if x = y then std_equal xs ys else some false

/-- Member `operator==`:
`std::equal(_colors.begin(), _colors.end(), rhs._colors.begin())`. -/
def disk_state.operator_eq (t rhs : disk_state) : Option Bool :=
  std_equal t._colors rhs._colors

/-- A finite sequence of calls `swap(i)` on one row, each of which succeeds;
`none` when one of them fails its assertion. -/
def disk_state.swaps : disk_state → List Nat → Option disk_state
  | t, [] => some t
  | t, i :: rest =>
    match t.swap i with
    | .ok t1 => disk_state.swaps t1 rest
    | .error _ => none

open disk_color

/-! ## Machine integers: the conversions on small values -/

theorem SIZE_MOD_eq : SIZE_MOD = 18446744073709551616 := by
  norm_num [SIZE_MOD]

theorem INT_MOD_eq : INT_MOD = 4294967296 := by
  norm_num [INT_MOD]

theorem to_int_of_lt {n : Nat} (h : n < 2 ^ 31) : to_int n = (n : Int) := by
  unfold to_int
  rw [INT_MOD_eq]
  norm_num at h
  omega

theorem to_size_natCast {n : Nat} (h : n < SIZE_MOD) : to_size (n : Int) = n := by
  unfold to_size
  rw [SIZE_MOD_eq] at *
  omega

theorem to_unsigned_zero : to_unsigned 0 = 0 := by
  decide

/-! ## `get` and `swap` -/

namespace disk_state

theorem get_of_lt (t : disk_state) {i : Nat} (h : i < t.total_count) :
    t.get i = some (t._colors.get ⟨i, h⟩) := by
  have h1 : i < t._colors.length := h
  simp [get, is_index, h, List.getElem?_eq_getElem h1]

theorem get_of_le (t : disk_state) {i : Nat} (h : t.total_count ≤ i) :
    t.get i = none := by
  simp [get, is_index, Nat.not_lt.mpr h]

theorem get_eq_getElem? (t : disk_state) (i : Nat) : t.get i = t._colors[i]? := by
  by_cases h : i < t.total_count
  · simp [get, is_index, h]
  · have h1 : t._colors.length ≤ i := Nat.not_lt.mp h
    simp [get, is_index, h, List.getElem?_eq_none h1]

/-- Writing `b` over a cell that holds `a` and putting `a` in front gives a
permutation of the list with `b` in front. -/
theorem perm_cons_set {α : Type} (l : List α) (j : Nat) (a b : α)
    (h : l[j]? = some b) : (b :: l.set j a).Perm (a :: l) := by
  induction l generalizing j with
  | nil => simp at h
  | cons y tl ih =>
    cases j with
    | zero =>
      simp only [List.getElem?_cons_zero, Option.some.injEq] at h
      subst h
      simpa using List.Perm.swap a y tl
    | succ j =>
      simp only [List.getElem?_cons_succ] at h
      simp only [List.set_cons_succ]
      exact (List.Perm.swap y b _).trans (((ih j h).cons y).trans (List.Perm.swap a y tl))

/-- Exchanging the contents of two cells of a list permutes it. -/
theorem perm_set_set {α : Type} (l : List α) (i j : Nat) (a b : α)
    (hi : l[i]? = some a) (hj : l[j]? = some b) :
    ((l.set i b).set j a).Perm l := by
  induction l generalizing i j with
  | nil => simp at hi
  | cons y tl ih =>
    cases i with
    | zero =>
      simp only [List.getElem?_cons_zero, Option.some.injEq] at hi
      subst hi
      cases j with
      | zero =>
        simp only [List.getElem?_cons_zero, Option.some.injEq] at hj
        subst hj
        simp
      | succ j =>
        simp only [List.getElem?_cons_succ] at hj
        simpa using perm_cons_set tl j y b hj
    | succ i =>
      simp only [List.getElem?_cons_succ] at hi
      cases j with
      | zero =>
        simp only [List.getElem?_cons_zero, Option.some.injEq] at hj
        subst hj
        simpa using perm_cons_set tl i y a hi
      | succ j =>
        simp only [List.getElem?_cons_succ] at hj
        simpa using ih i j hi hj

/-- A successful `swap` permutes the row. -/
theorem swap_ok_perm (t t1 : disk_state) (i : Nat) (h : t.swap i = .ok t1) :
    t1._colors.Perm t._colors := by
  unfold swap at h
  split at h
  · simp only at h
    split at h
    · split at h
      · next a b ha hb =>
        cases h
        exact perm_set_set _ _ _ _ _ ha hb
      · cases h
    · cases h
  · cases h

/-- A failed `swap` leaves the row as it was. -/
theorem swap_error_eq (t e : disk_state) (i : Nat) (h : t.swap i = .error e) :
    e = t := by
  unfold swap at h
  split at h
  · simp only at h
    split at h
    · split at h
      · cases h
      · cases h; rfl
    · cases h; rfl
  · cases h; rfl

/-- When both cells exist, `swap` succeeds. -/
theorem swap_ok_of_lt (t : disk_state) {i : Nat} (h : i + 1 < t.total_count)
    (hN : t.total_count ≤ SIZE_MOD) : ∃ t1, t.swap i = .ok t1 := by
  have hi : i < t._colors.length := by unfold total_count at h; omega
  have hj : i + 1 < t._colors.length := h
  have hm : (i + 1) % SIZE_MOD = i + 1 := Nat.mod_eq_of_lt (by omega)
  refine ⟨⟨(t._colors.set i (t._colors.get ⟨i + 1, hj⟩)).set (i + 1) (t._colors.get ⟨i, hi⟩)⟩, ?_⟩
  have h0 : i < t.total_count := hi
  simp [swap, is_index, hm, h, h0, List.getElem?_eq_getElem hi, List.getElem?_eq_getElem hj]

/-- The `swap` of a row whose right cell does not exist fails. -/
theorem swap_error_of_le (t : disk_state) {i : Nat} (h : t.total_count ≤ i + 1)
    (hN : t.total_count < SIZE_MOD) : t.swap i = .error t := by
  by_cases h0 : i < t.total_count
  · have hm : (i + 1) % SIZE_MOD = i + 1 := Nat.mod_eq_of_lt (by omega)
    have h1 : ¬ (i + 1 < t.total_count) := by omega
    simp [swap, is_index, hm, h0, h1]
  · simp [swap, is_index, h0]

theorem total_count_of_perm {t t1 : disk_state} (h : t1._colors.Perm t._colors) :
    t1.total_count = t.total_count := h.length_eq

end disk_state

/-! ## Runs: sequencing and the shared loop body -/

theorem Run.final_row_bind {α β : Type} (P : disk_state → Prop) {row : α → disk_state}
    {row1 : β → disk_state} {r : Run α} {f : α → Run β}
    (h : P (r.final_row row)) (hf : ∀ a, P (row a) → P ((f a).final_row row1)) :
    P ((r.bind f).final_row row1) := by
  cases r with
  | done a => exact hf a h
  | assert_failed s => exact h
  | out_of_fuel s => exact h

theorem Run.bind_done {α β : Type} (a : α) (f : α → Run β) :
    (Run.done a).bind f = f a := rfl

theorem Run.bind_assert_failed {α β : Type} (s : sort_state) (f : α → Run β) :
    (Run.assert_failed s : Run α).bind f = .assert_failed s := rfl

theorem Run.bind_out_of_fuel {α β : Type} (s : sort_state) (f : α → Run β) :
    (Run.out_of_fuel s : Run α).bind f = .out_of_fuel s := rfl

/-- Every outcome of the loop body holds a permutation of the row it started
from. -/
theorem compare_swap_perm (s : sort_state) (i j : Nat) :
    ((compare_swap s i j).final_row sort_state.temporary)._colors.Perm s.temporary._colors := by
  unfold compare_swap
  split
  · split
    · split
      · next t1 h => exact disk_state.swap_ok_perm _ _ _ h
      · next e h =>
        have := disk_state.swap_error_eq _ _ _ h
        subst this
        exact List.Perm.refl _
    · exact List.Perm.refl _
  · exact List.Perm.refl _

/-- On a pair of existing cells the loop body completes. -/
theorem compare_swap_done (s : sort_state) {i : Nat}
    (h : i + 1 < s.temporary.total_count) (hN : s.temporary.total_count ≤ SIZE_MOD) :
    ∃ s1, compare_swap s i (i + 1) = .done s1 ∧
      s1.temporary._colors.Perm s.temporary._colors := by
  have hi : i < s.temporary.total_count := by omega
  obtain ⟨t1, ht1⟩ := disk_state.swap_ok_of_lt s.temporary h hN
  have hp := compare_swap_perm s i (i + 1)
  have hd : ∃ s1, compare_swap s i (i + 1) = .done s1 := by
    unfold compare_swap
    rw [disk_state.get_of_lt _ hi, disk_state.get_of_lt _ h]
    simp only [ht1]
    split
    · exact ⟨_, rfl⟩
    · exact ⟨_, rfl⟩
  obtain ⟨s1, hs1⟩ := hd
  rw [hs1] at hp
  exact ⟨s1, hs1, hp⟩

/-- When the second cell does not exist the loop body fails an assertion,
with the local state untouched. -/
theorem compare_swap_failed (s : sort_state) (i : Nat) {j : Nat}
    (h : s.temporary.total_count ≤ j) : compare_swap s i j = .assert_failed s := by
  unfold compare_swap
  rw [disk_state.get_of_le _ h]
  cases s.temporary.get i <;> rfl

/-! ## `sort_left_to_right` does not return on two or more disks -/

/-- The inner loop entered at `y = 0` on a row of at least two disks never
exits: `y` stays `0`, whatever the fuel. -/
theorem ltr_inner_diverges (fuel x : Nat) (s : sort_state)
    (h2 : 2 ≤ s.temporary.total_count) (hN : s.temporary.total_count ≤ SIZE_MOD) :
    ∃ s1, ltr_inner fuel x 0 s = .out_of_fuel s1 ∧
      s1.temporary._colors.Perm s.temporary._colors := by
  induction fuel generalizing x s with
  | zero => exact ⟨s, rfl, List.Perm.refl _⟩
  | succ fuel ih =>
    have hc : 0 < (s.temporary.total_count + SIZE_MOD - 1) % SIZE_MOD := by
      rw [SIZE_MOD_eq] at *
      omega
    have h1 : (0 + 1) % SIZE_MOD = 0 + 1 := by rw [SIZE_MOD_eq]
    obtain ⟨s1, hs1, hp⟩ := compare_swap_done s (i := 0) (by omega) hN
    have hl := disk_state.total_count_of_perm hp
    obtain ⟨s2, hs2, hp2⟩ := ih ((x + 1) % SIZE_MOD) s1 (by omega) (by omega)
    refine ⟨s2, ?_, hp2.trans hp⟩
    rw [ltr_inner, if_pos hc, h1, hs1]
    exact hs2

/-- The function `sort_left_to_right` never returns on a row of at least two
disks: every fuel is exhausted, inside the first inner loop. -/
theorem sort_left_to_right_diverges (fuel : Nat) (t : disk_state)
    (h2 : 2 ≤ t.total_count) (hN : t.total_count ≤ SIZE_MOD) :
    ∃ s, sort_left_to_right fuel t = .out_of_fuel s ∧ s.temporary._colors.Perm t._colors := by
  unfold sort_left_to_right
  cases fuel with
  | zero => exact ⟨⟨t, 0⟩, rfl, List.Perm.refl _⟩
  | succ n =>
    obtain ⟨s1, hs1, hp⟩ := ltr_inner_diverges (n + 1) 0 ⟨t, 0⟩ h2 hN
    refine ⟨s1, ?_, hp⟩
    have hc : 0 < (sort_state.mk t 0).temporary.total_count := by
      show 0 < t.total_count
      omega
    rw [ltr_outer, if_pos hc, hs1]
    rfl

/-! ## `sort_lawnmower` fails an assertion in its first backward loop -/

theorem to_size_succ {y : Nat} (h : y + 1 < SIZE_MOD) : to_size ((y : Int) + 1) = y + 1 := by
  have := to_size_natCast h
  simpa using this

/-- The forward loop never fails an assertion: it completes, or runs out of
fuel, holding a permutation of the row. -/
theorem lawn_forward_safe (fuel y : Nat) (s : sort_state)
    (hN : s.temporary.total_count < 2 ^ 31) :
    (∃ s1, lawn_forward fuel (y : Int) s = .done s1 ∧
        s1.temporary._colors.Perm s.temporary._colors) ∨
    (∃ s1, lawn_forward fuel (y : Int) s = .out_of_fuel s1 ∧
        s1.temporary._colors.Perm s.temporary._colors) := by
  induction fuel generalizing y s with
  | zero => exact Or.inr ⟨s, rfl, List.Perm.refl _⟩
  | succ fuel ih =>
    rw [lawn_forward, to_int_of_lt hN]
    by_cases hc : (y : Int) < (s.temporary.total_count : Int) - 1
    · rw [if_pos hc]
      have hy : y + 1 < s.temporary.total_count := by omega
      have hM : s.temporary.total_count ≤ SIZE_MOD := by
        rw [SIZE_MOD_eq]; norm_num at hN; omega
      rw [to_size_natCast (by omega), to_size_succ (by omega)]
      obtain ⟨s1, hs1, hp⟩ := compare_swap_done s hy hM
      have hl := disk_state.total_count_of_perm hp
      rw [hs1]
      have hcast : ((y : Int) + 1) = ((y + 1 : Nat) : Int) := by push_cast; rfl
      rw [Run.bind_done, hcast]
      rcases ih (y + 1) s1 (by omega) with ⟨s2, h2, hp2⟩ | ⟨s2, h2, hp2⟩
      · exact Or.inl ⟨s2, h2, hp2.trans hp⟩
      · exact Or.inr ⟨s2, h2, hp2.trans hp⟩
    · rw [if_neg hc]
      exact Or.inl ⟨s, rfl, List.Perm.refl _⟩

/-- With fuel for every remaining index the forward loop completes. -/
theorem lawn_forward_done (fuel y : Nat) (s : sort_state)
    (hN : s.temporary.total_count < 2 ^ 31) (h1 : 1 ≤ fuel)
    (hf : s.temporary.total_count ≤ y + fuel) :
    ∃ s1, lawn_forward fuel (y : Int) s = .done s1 ∧
      s1.temporary._colors.Perm s.temporary._colors := by
  induction fuel generalizing y s with
  | zero => omega
  | succ fuel ih =>
    rw [lawn_forward, to_int_of_lt hN]
    by_cases hc : (y : Int) < (s.temporary.total_count : Int) - 1
    · rw [if_pos hc]
      have hy : y + 1 < s.temporary.total_count := by omega
      have hM : s.temporary.total_count ≤ SIZE_MOD := by
        rw [SIZE_MOD_eq]; norm_num at hN; omega
      rw [to_size_natCast (by omega), to_size_succ (by omega)]
      obtain ⟨s1, hs1, hp⟩ := compare_swap_done s hy hM
      have hl := disk_state.total_count_of_perm hp
      rw [hs1]
      have hcast : ((y : Int) + 1) = ((y + 1 : Nat) : Int) := by push_cast; rfl
      rw [Run.bind_done, hcast]
      obtain ⟨s2, h2, hp2⟩ := ih (y + 1) s1 (by omega) (by omega) (by omega)
      exact ⟨s2, h2, hp2.trans hp⟩
    · rw [if_neg hc]
      exact ⟨s, rfl, List.Perm.refl _⟩

/-- The backward loop, entered at `z = total_count()` on a non-empty row,
fails the assertion of `get(z)` in its first iteration. -/
theorem lawn_backward_failed (fuel : Nat) (s : sort_state)
    (h1 : 1 ≤ s.temporary.total_count) (hN : s.temporary.total_count < 2 ^ 31) :
    lawn_backward (fuel + 1) (to_int s.temporary.total_count) s = .assert_failed s := by
  have hM : s.temporary.total_count < SIZE_MOD := by
    rw [SIZE_MOD_eq]; norm_num at hN; omega
  rw [lawn_backward, to_int_of_lt hN]
  have hc : (s.temporary.total_count : Int) > 0 := by omega
  rw [if_pos hc, to_size_natCast hM, compare_swap_failed s _ (Nat.le_refl _)]
  rfl

theorem lawn_outer_enters (s : sort_state) (h2 : 2 ≤ s.temporary.total_count)
    (hN : s.temporary.total_count < 2 ^ 31) :
    (0 : Int) < (to_int s.temporary.total_count).tdiv 2 := by
  rw [to_int_of_lt hN, Int.tdiv_eq_ediv (by omega) (by decide)]
  omega

/-- The function `sort_lawnmower` never returns on a row of `2` to
`2^31 - 1` disks: it runs out of fuel in the first forward loop, or
fails an assertion in the first backward loop. -/
theorem sort_lawnmower_stops (fuel : Nat) (t : disk_state)
    (h2 : 2 ≤ t.total_count) (hN : t.total_count < 2 ^ 31) :
    (∃ s, sort_lawnmower fuel t = .assert_failed s ∧ s.temporary._colors.Perm t._colors) ∨
    (∃ s, sort_lawnmower fuel t = .out_of_fuel s ∧ s.temporary._colors.Perm t._colors) := by
  unfold sort_lawnmower
  cases fuel with
  | zero => exact Or.inr ⟨⟨t, 0⟩, rfl, List.Perm.refl _⟩
  | succ n =>
    rw [lawn_outer, if_pos (lawn_outer_enters ⟨t, 0⟩ h2 hN)]
    rcases lawn_forward_safe (n + 1) 0 ⟨t, 0⟩ hN with ⟨s1, hs1, hp⟩ | ⟨s1, hs1, hp⟩
    · have hl : s1.temporary.total_count = t.total_count := disk_state.total_count_of_perm hp
      have hb := lawn_backward_failed n s1 (by omega) (by omega)
      have h0 : ((0 : Nat) : Int) = 0 := rfl
      rw [h0] at hs1
      refine Or.inl ⟨s1, ?_, hp⟩
      rw [hs1, Run.bind_done, hb, Run.bind_assert_failed, Run.bind_assert_failed]
    · have h0 : ((0 : Nat) : Int) = 0 := rfl
      rw [h0] at hs1
      refine Or.inr ⟨s1, ?_, hp⟩
      rw [hs1, Run.bind_out_of_fuel, Run.bind_out_of_fuel]

/-- With fuel for one forward loop, `sort_lawnmower` fails an assertion on
every row of `2` to `2^31 - 1` disks. -/
theorem sort_lawnmower_failed (fuel : Nat) (t : disk_state)
    (h2 : 2 ≤ t.total_count) (hN : t.total_count < 2 ^ 31) (hf : t.total_count ≤ fuel) :
    ∃ s, sort_lawnmower fuel t = .assert_failed s ∧ s.temporary._colors.Perm t._colors := by
  unfold sort_lawnmower
  cases fuel with
  | zero => omega
  | succ n =>
    rw [lawn_outer, if_pos (lawn_outer_enters ⟨t, 0⟩ h2 hN)]
    obtain ⟨s1, hs1, hp⟩ := lawn_forward_done (n + 1) 0 ⟨t, 0⟩ hN (by omega)
      (by show t.total_count ≤ 0 + (n + 1); omega)
    have hl : s1.temporary.total_count = t.total_count := disk_state.total_count_of_perm hp
    have hb := lawn_backward_failed n s1 (by omega) (by omega)
    have h0 : ((0 : Nat) : Int) = 0 := rfl
    rw [h0] at hs1
    refine ⟨s1, ?_, hp⟩
    rw [hs1, Run.bind_done, hb, Run.bind_assert_failed, Run.bind_assert_failed]

/-! ## The constructor and the two predicates -/

namespace disk_state

theorem ctor_loop_length (n i : Nat) (colors : List disk_color) :
    (ctor_loop n i colors).length = colors.length := by
  induction n generalizing i colors with
  | zero => rfl
  | succ n ih =>
    rw [ctor_loop]
    split
    · rw [ih, List.length_set]
    · rfl

/-- The constructor's loop started at `i` darkens the cells `i, i+2, ...` and
leaves the others. -/
theorem ctor_loop_getElem? (n i : Nat) (colors : List disk_color)
    (hM : colors.length + 2 ≤ SIZE_MOD) (hf : colors.length ≤ i + 2 * n) (j : Nat) :
    (ctor_loop n i colors)[j]? =
      if i ≤ j ∧ j < colors.length ∧ (j - i) % 2 = 0 then some DISK_DARK else colors[j]? := by
  induction n generalizing i colors with
  | zero =>
    rw [ctor_loop, if_neg (by omega)]
  | succ n ih =>
    rw [ctor_loop]
    by_cases hi : i < colors.length
    · have hm : (i + 2) % SIZE_MOD = i + 2 := Nat.mod_eq_of_lt (by omega)
      rw [if_pos hi, hm, ih (i + 2) (colors.set i DISK_DARK) (by simpa using hM)
        (by simp only [List.length_set]; omega), List.length_set, List.getElem?_set]
      by_cases hij : i = j
      · subst hij
        simp [hi]
      · by_cases hc : i + 2 ≤ j ∧ j < colors.length ∧ (j - (i + 2)) % 2 = 0
        · rw [if_pos hc, if_pos (by omega)]
        · rw [if_neg hc, if_neg hij]
          by_cases hc2 : i ≤ j ∧ j < colors.length ∧ (j - i) % 2 = 0
          · exfalso; omega
          · rw [if_neg hc2]
    · rw [if_neg hi, if_neg (by omega)]

/-- The constructor on a light count `k` with `1 ≤ k` and `2 * k` in the
range of `size_t`: the row has `2 * k` cells, light at even and dark at odd
indices. -/
theorem create_spec (k : Nat) (h1 : 1 ≤ k) (hk : 2 * k < SIZE_MOD) :
    ∃ t, create k = some t ∧ t.total_count = 2 * k ∧
      ∀ j, j < 2 * k → t._colors[j]? = some (if j % 2 = 0 then DISK_LIGHT else DISK_DARK) := by
  have hm : (k * 2) % SIZE_MOD = 2 * k := by
    rw [Nat.mul_comm]; exact Nat.mod_eq_of_lt hk
  have hpar : 2 * k + 2 ≤ SIZE_MOD := by
    rw [SIZE_MOD_eq] at *; omega
  refine ⟨⟨ctor_loop (2 * k) 1 (List.replicate (2 * k) DISK_LIGHT)⟩, ?_, ?_, ?_⟩
  · have hd : 0 < 2 * k / 2 := by omega
    simp [create, hm, dark_count, total_count, hd]
    omega
  · simp [total_count, ctor_loop_length]
  · intro j hj
    show (ctor_loop (2 * k) 1 (List.replicate (2 * k) DISK_LIGHT))[j]? = _
    rw [ctor_loop_getElem? _ _ _ (by simpa using hpar) (by simp only [List.length_replicate]; omega)]
    simp only [List.length_replicate]
    by_cases hc : j % 2 = 0
    · rw [if_neg (by omega), if_pos hc]
      simp [List.getElem?_replicate, hj]
    · rw [if_pos (by omega), if_neg hc]

/-- The loop of `is_alternating` from `x` answers `true` exactly when every
cell from `x` on holds the colour of its parity. -/
theorem is_alternating_loop_iff (t : disk_state) (n x : Nat) (h : t._colors.length ≤ x + n) :
    is_alternating_loop t n x = true ↔
      ∀ j, x ≤ j → j < t._colors.length →
        t._colors[j]? = some (if j % 2 = 0 then DISK_LIGHT else DISK_DARK) := by
  induction n generalizing x with
  | zero =>
    simp only [is_alternating_loop, true_iff]
    intro j h1 h2
    omega
  | succ n ih =>
    rw [is_alternating_loop]
    by_cases hx : x < t._colors.length
    · rw [if_pos hx]
      have hget : t._colors[x]? = some (t._colors.get ⟨x, hx⟩) := List.getElem?_eq_getElem hx
      have key : ∀ c : disk_color, t._colors[x]? = some c →
          ((∀ j, x ≤ j → j < t._colors.length →
              t._colors[j]? = some (if j % 2 = 0 then DISK_LIGHT else DISK_DARK)) ↔
            (c = (if x % 2 = 0 then DISK_LIGHT else DISK_DARK) ∧
              ∀ j, x + 1 ≤ j → j < t._colors.length →
                t._colors[j]? = some (if j % 2 = 0 then DISK_LIGHT else DISK_DARK))) := by
        intro c hc
        constructor
        · intro hall
          refine ⟨?_, fun j hj1 hj2 => hall j (by omega) hj2⟩
          have := hall x (Nat.le_refl _) hx
          rw [hc] at this
          exact Option.some.inj this
        · rintro ⟨hc1, hall⟩ j hj1 hj2
          by_cases hjx : j = x
          · subst hjx; rw [hc, hc1]
          · exact hall j (by omega) hj2
      rw [key _ hget, ← ih (x + 1) (by omega), hget]
      cases hcol : t._colors.get ⟨x, hx⟩ <;> by_cases hp : x % 2 = 0 <;> simp [hp]
    · rw [if_neg hx]
      simp only [true_iff]
      intro j h1 h2
      omega

/-- The loop of `is_sorted` from `x` answers `true` exactly when every cell
from `x` on holds the colour of its half. -/
theorem is_sorted_loop_iff (t : disk_state) (n x : Nat) (h : t.total_count ≤ x + n) :
    is_sorted_loop t n x = true ↔
      ∀ j, x ≤ j → j < t.total_count →
        t._colors[j]? = some (if j < t.total_count / 2 then DISK_LIGHT else DISK_DARK) := by
  induction n generalizing x with
  | zero =>
    simp only [is_sorted_loop, true_iff]
    intro j h1 h2
    omega
  | succ n ih =>
    rw [is_sorted_loop]
    by_cases hx : x < t.total_count
    · rw [if_pos hx]
      have hx1 : x < t._colors.length := hx
      have hget : t._colors[x]? = some (t._colors.get ⟨x, hx1⟩) := List.getElem?_eq_getElem hx1
      have key : ∀ c : disk_color, t._colors[x]? = some c →
          ((∀ j, x ≤ j → j < t.total_count →
              t._colors[j]? = some (if j < t.total_count / 2 then DISK_LIGHT else DISK_DARK)) ↔
            (c = (if x < t.total_count / 2 then DISK_LIGHT else DISK_DARK) ∧
              ∀ j, x + 1 ≤ j → j < t.total_count →
                t._colors[j]? = some (if j < t.total_count / 2 then DISK_LIGHT else DISK_DARK))) := by
        intro c hc
        constructor
        · intro hall
          refine ⟨?_, fun j hj1 hj2 => hall j (by omega) hj2⟩
          have := hall x (Nat.le_refl _) hx
          rw [hc] at this
          exact Option.some.inj this
        · rintro ⟨hc1, hall⟩ j hj1 hj2
          by_cases hjx : j = x
          · subst hjx; rw [hc, hc1]
          · exact hall j (by omega) hj2
      rw [key _ hget, ← ih (x + 1) (by omega), hget]
      cases hcol : t._colors.get ⟨x, hx1⟩ <;> by_cases hp : x < t.total_count / 2 <;> simp [hp]
    · rw [if_neg hx]
      simp only [true_iff]
      intro j h1 h2
      omega

theorem is_alternating_iff (t : disk_state) :
    t.is_alternating = true ↔
      ∀ j, j < t.total_count →
        t._colors[j]? = some (if j % 2 = 0 then DISK_LIGHT else DISK_DARK) := by
  unfold is_alternating
  rw [is_alternating_loop_iff t _ 0 (by omega)]
  exact ⟨fun h j hj => h j (Nat.zero_le _) hj, fun h j _ hj => h j hj⟩

theorem is_sorted_iff (t : disk_state) :
    t.is_sorted = true ↔
      ∀ j, j < t.total_count →
        t._colors[j]? = some (if j < t.total_count / 2 then DISK_LIGHT else DISK_DARK) := by
  unfold is_sorted
  rw [is_sorted_loop_iff t _ 0 (by omega)]
  exact ⟨fun h j hj => h j (Nat.zero_le _) hj, fun h j _ hj => h j hj⟩

end disk_state

/-! ## Every run holds a permutation of the input -/

theorem Run.observed_row_eq (r : Run sorted_disks) :
    r.observed_row = r.final_row sorted_disks.after := by
  cases r <;> rfl

theorem ltr_inner_perm (fuel x y : Nat) (s : sort_state) :
    ((ltr_inner fuel x y s).final_row fun p => p.2.temporary)._colors.Perm
      s.temporary._colors := by
  induction fuel generalizing x s with
  | zero => exact List.Perm.refl _
  | succ fuel ih =>
    rw [ltr_inner]
    by_cases hc : y < (s.temporary.total_count + SIZE_MOD - 1) % SIZE_MOD
    · rw [if_pos hc]
      refine Run.final_row_bind (fun t => t._colors.Perm s.temporary._colors)
        (compare_swap_perm s y _) ?_
      intro s1 hp
      exact (ih _ s1).trans hp
    · rw [if_neg hc]
      exact List.Perm.refl _

theorem ltr_outer_perm (fuel n x : Nat) (s : sort_state) :
    ((ltr_outer fuel n x s).final_row sort_state.temporary)._colors.Perm
      s.temporary._colors := by
  induction n generalizing x s with
  | zero => exact List.Perm.refl _
  | succ n ih =>
    rw [ltr_outer]
    by_cases hc : x < s.temporary.total_count
    · rw [if_pos hc]
      refine Run.final_row_bind (fun t => t._colors.Perm s.temporary._colors)
        (ltr_inner_perm fuel x x s) ?_
      intro p hp
      exact (ih _ p.2).trans hp
    · rw [if_neg hc]
      exact List.Perm.refl _

theorem sort_left_to_right_perm (fuel : Nat) (before : disk_state) :
    (sort_left_to_right fuel before).observed_row._colors.Perm before._colors := by
  rw [Run.observed_row_eq]
  unfold sort_left_to_right
  refine Run.final_row_bind (fun t => t._colors.Perm before._colors)
    (ltr_outer_perm fuel fuel 0 ⟨before, 0⟩) ?_
  intro s hp
  exact hp

theorem lawn_forward_perm (fuel : Nat) (y : Int) (s : sort_state) :
    ((lawn_forward fuel y s).final_row sort_state.temporary)._colors.Perm
      s.temporary._colors := by
  induction fuel generalizing y s with
  | zero => exact List.Perm.refl _
  | succ fuel ih =>
    rw [lawn_forward]
    by_cases hc : y < to_int s.temporary.total_count - 1
    · rw [if_pos hc]
      refine Run.final_row_bind (fun t => t._colors.Perm s.temporary._colors)
        (compare_swap_perm s _ _) ?_
      intro s1 hp
      exact (ih _ s1).trans hp
    · rw [if_neg hc]
      exact List.Perm.refl _

theorem lawn_backward_perm (fuel : Nat) (z : Int) (s : sort_state) :
    ((lawn_backward fuel z s).final_row sort_state.temporary)._colors.Perm
      s.temporary._colors := by
  induction fuel generalizing z s with
  | zero => exact List.Perm.refl _
  | succ fuel ih =>
    rw [lawn_backward]
    by_cases hc : z > 0
    · rw [if_pos hc]
      refine Run.final_row_bind (fun t => t._colors.Perm s.temporary._colors)
        (compare_swap_perm s _ _) ?_
      intro s1 hp
      exact (ih _ s1).trans hp
    · rw [if_neg hc]
      exact List.Perm.refl _

theorem lawn_outer_perm (fuel n : Nat) (x : Int) (s : sort_state) :
    ((lawn_outer fuel n x s).final_row sort_state.temporary)._colors.Perm
      s.temporary._colors := by
  induction n generalizing x s with
  | zero => exact List.Perm.refl _
  | succ n ih =>
    rw [lawn_outer]
    by_cases hc : x < (to_int s.temporary.total_count).tdiv 2
    · rw [if_pos hc]
      refine Run.final_row_bind (fun t => t._colors.Perm s.temporary._colors)
        (lawn_forward_perm fuel 0 s) ?_
      intro s1 hp1
      refine Run.final_row_bind (fun t => t._colors.Perm s.temporary._colors)
        ((lawn_backward_perm fuel _ s1).trans hp1) ?_
      intro s2 hp2
      exact (ih _ s2).trans hp2
    · rw [if_neg hc]
      exact List.Perm.refl _

theorem sort_lawnmower_perm (fuel : Nat) (before : disk_state) :
    (sort_lawnmower fuel before).observed_row._colors.Perm before._colors := by
  rw [Run.observed_row_eq]
  unfold sort_lawnmower
  refine Run.final_row_bind (fun t => t._colors.Perm before._colors)
    (lawn_outer_perm fuel fuel 0 ⟨before, 0⟩) ?_
  intro s hp
  exact hp

/-! ## `sort_left_to_right` keeps its indices in bounds -/

theorem ltr_inner_safe (fuel x y : Nat) (s : sort_state)
    (h1 : 1 ≤ s.temporary.total_count) (hN : s.temporary.total_count ≤ SIZE_MOD) :
    (ltr_inner fuel x y s).is_assert_failed = false := by
  induction fuel generalizing x s with
  | zero => rfl
  | succ fuel ih =>
    rw [ltr_inner]
    by_cases hc : y < (s.temporary.total_count + SIZE_MOD - 1) % SIZE_MOD
    · have hy : y + 1 < s.temporary.total_count := by
        rw [SIZE_MOD_eq] at *; omega
      have hm : (y + 1) % SIZE_MOD = y + 1 := Nat.mod_eq_of_lt (by omega)
      obtain ⟨s1, hs1, hp⟩ := compare_swap_done s hy hN
      have hl := disk_state.total_count_of_perm hp
      rw [if_pos hc, hm, hs1, Run.bind_done]
      exact ih _ s1 (by omega) (by omega)
    · rw [if_neg hc]
      rfl

theorem ltr_outer_safe (fuel n x : Nat) (s : sort_state)
    (hN : s.temporary.total_count ≤ SIZE_MOD) :
    (ltr_outer fuel n x s).is_assert_failed = false := by
  induction n generalizing x s with
  | zero => rfl
  | succ n ih =>
    rw [ltr_outer]
    by_cases hc : x < s.temporary.total_count
    · rw [if_pos hc]
      have hsafe := ltr_inner_safe fuel x x s (by omega) hN
      have hperm := ltr_inner_perm fuel x x s
      cases hr : ltr_inner fuel x x s with
      | done p =>
        rw [hr] at hperm
        have hl : p.2.temporary.total_count = s.temporary.total_count :=
          disk_state.total_count_of_perm hperm
        rw [Run.bind_done]
        exact ih _ p.2 (by omega)
      | assert_failed e => rw [hr] at hsafe; cases hsafe
      | out_of_fuel e => rfl
    · rw [if_neg hc]
      rfl

theorem sort_left_to_right_safe (fuel : Nat) (t : disk_state) (hN : t.total_count ≤ SIZE_MOD) :
    (sort_left_to_right fuel t).is_assert_failed = false := by
  unfold sort_left_to_right
  have hsafe := ltr_outer_safe fuel fuel 0 ⟨t, 0⟩ hN
  cases hr : ltr_outer fuel fuel 0 ⟨t, 0⟩ with
  | done p => rfl
  | assert_failed e => rw [hr] at hsafe; cases hsafe
  | out_of_fuel e => rfl

/-! ## Counting the disks of a constructed row -/

theorem count_alternating (k : Nat) :
    ((List.range (2 * k)).map fun j => if j % 2 = 0 then DISK_LIGHT else DISK_DARK).count
        DISK_LIGHT = k ∧
    ((List.range (2 * k)).map fun j => if j % 2 = 0 then DISK_LIGHT else DISK_DARK).count
        DISK_DARK = k := by
  induction k with
  | zero => exact ⟨rfl, rfl⟩
  | succ k ih =>
    have e : 2 * (k + 1) = 2 * k + 1 + 1 := by omega
    have h0 : (2 * k) % 2 = 0 := by omega
    have h1 : ¬ ((2 * k + 1) % 2 = 0) := by omega
    rw [e, List.range_succ, List.range_succ]
    simp only [List.map_append, List.map_cons, List.map_nil, List.count_append, if_pos h0,
      if_neg h1]
    obtain ⟨ihl, ihd⟩ := ih
    rw [ihl, ihd]
    exact ⟨by simp, by simp⟩

/-- A constructed row of light count `k` holds `k` light and `k` dark disks. -/
theorem disk_state.create_count (k : Nat) (t : disk_state) (hk : 2 * k < SIZE_MOD)
    (h : disk_state.create k = some t) :
    t._colors.count DISK_LIGHT = k ∧ t._colors.count DISK_DARK = k := by
  have h1 : 1 ≤ k := by
    rcases Nat.eq_zero_or_pos k with h0 | h0
    · subst h0
      have : disk_state.create 0 = none := by decide
      rw [this] at h
      cases h
    · exact h0
  obtain ⟨t1, ht1, hlen, hcol⟩ := disk_state.create_spec k h1 hk
  rw [ht1] at h
  cases h
  have hl : t._colors.length = 2 * k := hlen
  have e : t._colors =
      (List.range (2 * k)).map fun j => if j % 2 = 0 then DISK_LIGHT else DISK_DARK := by
    apply List.ext_getElem?
    intro j
    by_cases hj : j < 2 * k
    · rw [hcol j hj]
      simp [List.getElem?_map, List.getElem?_range hj]
    · rw [List.getElem?_eq_none (by omega), List.getElem?_eq_none (by simp; omega)]
  rw [e]
  exact count_alternating k

theorem length_eq_count_add_count (l : List disk_color) :
    l.length = l.count DISK_LIGHT + l.count DISK_DARK := by
  induction l with
  | nil => rfl
  | cons c tl ih =>
    cases c <;> simp [List.count_cons] <;> omega

/-! ## The claims on the two sorting functions at alternating rows -/

/-- C1 (the code does not meet it): on the alternating row built for any
light count `k` with `1 ≤ k` and `2 * k` in the range of `size_t`,
`sort_left_to_right` returns no result, sorted or not. Whatever the fuel,
the run is still inside its first inner loop, whose header increments `x`
while its condition tests `y`. -/
theorem C1_sort_left_to_right_never_returns (k fuel : Nat) (h1 : 1 ≤ k)
    (hk : 2 * k < SIZE_MOD) :
    ∃ t, disk_state.create k = some t ∧ t.is_alternating = true ∧
      ∃ s, sort_left_to_right fuel t = .out_of_fuel s := by
  obtain ⟨t, ht, hlen, hcol⟩ := disk_state.create_spec k h1 hk
  have halt : t.is_alternating = true := by
    rw [disk_state.is_alternating_iff]
    intro j hj
    exact hcol j (by omega)
  obtain ⟨s, hs, _⟩ := sort_left_to_right_diverges fuel t (by omega) (by omega)
  exact ⟨t, ht, halt, s, hs⟩

theorem C1_sort_left_to_right_never_returns_witness :
    1 ≤ 2 ∧ 2 * 2 < SIZE_MOD ∧
      ∃ t, disk_state.create 2 = some t ∧ t.is_alternating = true ∧
        ∃ s, sort_left_to_right 7 t = .out_of_fuel s :=
  ⟨by decide, by decide, C1_sort_left_to_right_never_returns 2 7 (by decide) (by decide)⟩

/-- C2 (the code does not meet it): on the alternating row built for any
light count `k` with `1 ≤ k` and `2 * k < 2^31`, `sort_lawnmower` returns no
result. With fuel for one forward loop the run fails an assertion: the first
backward loop starts at `z = total_count()` and calls `get(z)`. -/
theorem C2_sort_lawnmower_assertion_fails (k : Nat) (h1 : 1 ≤ k) (hk : 2 * k < 2 ^ 31) :
    ∃ t, disk_state.create k = some t ∧ t.is_alternating = true ∧
      (∀ fuel, (sort_lawnmower fuel t).is_done = false) ∧
      (∀ fuel, 2 * k ≤ fuel → ∃ s, sort_lawnmower fuel t = .assert_failed s) := by
  have hk2 : 2 * k < SIZE_MOD := by
    rw [SIZE_MOD_eq]; norm_num at hk; omega
  obtain ⟨t, ht, hlen, hcol⟩ := disk_state.create_spec k h1 hk2
  have halt : t.is_alternating = true := by
    rw [disk_state.is_alternating_iff]
    intro j hj
    exact hcol j (by omega)
  refine ⟨t, ht, halt, ?_, ?_⟩
  · intro fuel
    rcases sort_lawnmower_stops fuel t (by omega) (by omega) with ⟨s, hs, _⟩ | ⟨s, hs, _⟩ <;>
      rw [hs] <;> rfl
  · intro fuel hf
    obtain ⟨s, hs, _⟩ := sort_lawnmower_failed fuel t (by omega) (by omega) (by omega)
    exact ⟨s, hs⟩

theorem C2_sort_lawnmower_assertion_fails_witness :
    1 ≤ 1 ∧ 2 * 1 < 2 ^ 31 ∧
      ∃ t, disk_state.create 1 = some t ∧ t.is_alternating = true ∧
        (∀ fuel, (sort_lawnmower fuel t).is_done = false) ∧
        (∀ fuel, 2 * 1 ≤ fuel → ∃ s, sort_lawnmower fuel t = .assert_failed s) :=
  ⟨by decide, by decide, C2_sort_lawnmower_assertion_fails 1 (by decide) (by decide)⟩

/-- C3 (the code does not meet it): for light count `2` the input is
`L D L D`; `sort_left_to_right` returns neither `L L D D` nor a swap count.
For every fuel the run is out of fuel with the working copy still `L D L D`
and the counter still `0`: the pair at `y = 0` is in order and `y` never
moves. -/
theorem C3_left_to_right_two_lights_stuck :
    disk_state.create 2 = some ⟨[DISK_LIGHT, DISK_DARK, DISK_LIGHT, DISK_DARK]⟩ ∧
    ∀ fuel, sort_left_to_right fuel ⟨[DISK_LIGHT, DISK_DARK, DISK_LIGHT, DISK_DARK]⟩ =
      .out_of_fuel ⟨⟨[DISK_LIGHT, DISK_DARK, DISK_LIGHT, DISK_DARK]⟩, 0⟩ := by
  refine ⟨by decide, ?_⟩
  have hin : ∀ fuel x, ltr_inner fuel x 0 ⟨⟨[DISK_LIGHT, DISK_DARK, DISK_LIGHT, DISK_DARK]⟩, 0⟩ =
      .out_of_fuel ⟨⟨[DISK_LIGHT, DISK_DARK, DISK_LIGHT, DISK_DARK]⟩, 0⟩ := by
    intro fuel
    induction fuel with
    | zero => intro x; rfl
    | succ fuel ih =>
      intro x
      have hc : 0 < ((sort_state.mk ⟨[DISK_LIGHT, DISK_DARK, DISK_LIGHT, DISK_DARK]⟩ 0).temporary.total_count
          + SIZE_MOD - 1) % SIZE_MOD := by decide
      have hb : compare_swap ⟨⟨[DISK_LIGHT, DISK_DARK, DISK_LIGHT, DISK_DARK]⟩, 0⟩ 0 ((0 + 1) % SIZE_MOD) =
          .done ⟨⟨[DISK_LIGHT, DISK_DARK, DISK_LIGHT, DISK_DARK]⟩, 0⟩ := by decide
      rw [ltr_inner, if_pos hc, hb, Run.bind_done]
      exact ih _
  intro fuel
  unfold sort_left_to_right
  cases fuel with
  | zero => rfl
  | succ n =>
    have hc : 0 < (sort_state.mk ⟨[DISK_LIGHT, DISK_DARK, DISK_LIGHT, DISK_DARK]⟩ 0).temporary.total_count := by
      decide
    rw [ltr_outer, if_pos hc, hin, Run.bind_out_of_fuel, Run.bind_out_of_fuel]

/-- C4 (the code does not meet it): for light count `1` the input is `L D`.
Neither function returns `L D` with swap count `0`: `sort_left_to_right`
is out of fuel for every fuel, and `sort_lawnmower`, given fuel for its
forward loop, fails the assertion of `get(2)`; in both the working copy is
`L D` and the counter `0`. -/
theorem C4_one_light_no_result :
    disk_state.create 1 = some ⟨[DISK_LIGHT, DISK_DARK]⟩ ∧
    (∀ fuel, sort_left_to_right fuel ⟨[DISK_LIGHT, DISK_DARK]⟩ =
      .out_of_fuel ⟨⟨[DISK_LIGHT, DISK_DARK]⟩, 0⟩) ∧
    (∀ fuel, sort_lawnmower (fuel + 2) ⟨[DISK_LIGHT, DISK_DARK]⟩ =
      .assert_failed ⟨⟨[DISK_LIGHT, DISK_DARK]⟩, 0⟩) := by
  refine ⟨by decide, ?_, ?_⟩
  · have hin : ∀ fuel x, ltr_inner fuel x 0 ⟨⟨[DISK_LIGHT, DISK_DARK]⟩, 0⟩ =
        .out_of_fuel ⟨⟨[DISK_LIGHT, DISK_DARK]⟩, 0⟩ := by
      intro fuel
      induction fuel with
      | zero => intro x; rfl
      | succ fuel ih =>
        intro x
        have hc : 0 < ((sort_state.mk ⟨[DISK_LIGHT, DISK_DARK]⟩ 0).temporary.total_count
            + SIZE_MOD - 1) % SIZE_MOD := by decide
        have hb : compare_swap ⟨⟨[DISK_LIGHT, DISK_DARK]⟩, 0⟩ 0 ((0 + 1) % SIZE_MOD) =
            .done ⟨⟨[DISK_LIGHT, DISK_DARK]⟩, 0⟩ := by decide
        rw [ltr_inner, if_pos hc, hb, Run.bind_done]
        exact ih _
    intro fuel
    unfold sort_left_to_right
    cases fuel with
    | zero => rfl
    | succ n =>
      have hc : 0 < (sort_state.mk ⟨[DISK_LIGHT, DISK_DARK]⟩ 0).temporary.total_count := by
        decide
      rw [ltr_outer, if_pos hc, hin, Run.bind_out_of_fuel, Run.bind_out_of_fuel]
  · intro fuel
    have hx : (0 : Int) < (to_int (sort_state.mk ⟨[DISK_LIGHT, DISK_DARK]⟩ 0).temporary.total_count).tdiv 2 := by
      decide
    have hy0 : (0 : Int) < to_int (sort_state.mk ⟨[DISK_LIGHT, DISK_DARK]⟩ 0).temporary.total_count - 1 := by
      decide
    have hy1 : ¬ ((0 : Int) + 1 < to_int (sort_state.mk ⟨[DISK_LIGHT, DISK_DARK]⟩ 0).temporary.total_count - 1) := by
      decide
    have hb0 : compare_swap ⟨⟨[DISK_LIGHT, DISK_DARK]⟩, 0⟩ (to_size 0) (to_size (0 + 1)) =
        .done ⟨⟨[DISK_LIGHT, DISK_DARK]⟩, 0⟩ := by decide
    have hz : to_int (sort_state.mk ⟨[DISK_LIGHT, DISK_DARK]⟩ 0).temporary.total_count > 0 := by
      decide
    have hb1 : compare_swap ⟨⟨[DISK_LIGHT, DISK_DARK]⟩, 0⟩
        (to_size (to_int (sort_state.mk ⟨[DISK_LIGHT, DISK_DARK]⟩ 0).temporary.total_count - 1))
        (to_size (to_int (sort_state.mk ⟨[DISK_LIGHT, DISK_DARK]⟩ 0).temporary.total_count)) =
        .assert_failed ⟨⟨[DISK_LIGHT, DISK_DARK]⟩, 0⟩ := by decide
    unfold sort_lawnmower
    rw [lawn_outer, if_pos hx, lawn_forward, if_pos hy0, hb0, Run.bind_done, lawn_forward,
      if_neg hy1, Run.bind_done, lawn_backward, if_pos hz, hb1, Run.bind_assert_failed,
      Run.bind_assert_failed, Run.bind_assert_failed]

/-! ## Token counts and the swap count -/

/-- C6: both sorting functions only permute the row. For every input and
every fuel, the row observed at the end of the run (`after()` of a returned
result, the working copy otherwise) has the length of the input and as many
light and as many dark disks; for a constructed row of light count `k`
these numbers are `k` and `k`. -/
theorem C6_sorters_preserve_tokens (fuel : Nat) (before : disk_state) :
    (∀ r, sort_left_to_right fuel before = .done r ∨ sort_lawnmower fuel before = .done r →
      r.after.total_count = before.total_count ∧
      r.after._colors.count DISK_LIGHT = before._colors.count DISK_LIGHT ∧
      r.after._colors.count DISK_DARK = before._colors.count DISK_DARK) ∧
    ((sort_left_to_right fuel before).observed_row.total_count = before.total_count ∧
      (sort_left_to_right fuel before).observed_row._colors.count DISK_LIGHT =
        before._colors.count DISK_LIGHT ∧
      (sort_left_to_right fuel before).observed_row._colors.count DISK_DARK =
        before._colors.count DISK_DARK) ∧
    ((sort_lawnmower fuel before).observed_row.total_count = before.total_count ∧
      (sort_lawnmower fuel before).observed_row._colors.count DISK_LIGHT =
        before._colors.count DISK_LIGHT ∧
      (sort_lawnmower fuel before).observed_row._colors.count DISK_DARK =
        before._colors.count DISK_DARK) ∧
    (∀ k, 2 * k < SIZE_MOD → disk_state.create k = some before →
      before._colors.count DISK_LIGHT = k ∧ before._colors.count DISK_DARK = k) := by
  have hl := sort_left_to_right_perm fuel before
  have hw := sort_lawnmower_perm fuel before
  refine ⟨?_, ⟨hl.length_eq, hl.count_eq _, hl.count_eq _⟩,
    ⟨hw.length_eq, hw.count_eq _, hw.count_eq _⟩,
    fun k hk h => disk_state.create_count k before hk h⟩
  rintro r (h | h)
  · rw [h] at hl
    exact ⟨hl.length_eq, hl.count_eq _, hl.count_eq _⟩
  · rw [h] at hw
    exact ⟨hw.length_eq, hw.count_eq _, hw.count_eq _⟩

/-- C7 (the code does not meet it): on a non-empty row with as many light as
dark disks (and fewer than `2^31` disks) neither function returns a swap
count, zero or not: for every fuel the run of each ends without a result,
whether the row is sorted or not. -/
theorem C7_no_swap_count_returned (fuel : Nat) (before : disk_state)
    (h1 : 1 ≤ before.total_count) (hN : before.total_count < 2 ^ 31)
    (heq : before._colors.count DISK_LIGHT = before._colors.count DISK_DARK) :
    (sort_left_to_right fuel before).is_done = false ∧
    (sort_lawnmower fuel before).is_done = false := by
  have hlen : before.total_count =
      before._colors.count DISK_LIGHT + before._colors.count DISK_DARK :=
    length_eq_count_add_count before._colors
  have h2 : 2 ≤ before.total_count := by omega
  have hM : before.total_count ≤ SIZE_MOD := by
    rw [SIZE_MOD_eq]; norm_num at hN; omega
  constructor
  · obtain ⟨s, hs, _⟩ := sort_left_to_right_diverges fuel before h2 hM
    rw [hs]; rfl
  · rcases sort_lawnmower_stops fuel before h2 hN with ⟨s, hs, _⟩ | ⟨s, hs, _⟩ <;>
      rw [hs] <;> rfl

theorem C7_no_swap_count_returned_witness :
    1 ≤ (disk_state.mk [DISK_LIGHT, DISK_LIGHT, DISK_DARK, DISK_DARK]).total_count ∧
    (disk_state.mk [DISK_LIGHT, DISK_LIGHT, DISK_DARK, DISK_DARK]).total_count < 2 ^ 31 ∧
    (disk_state.mk [DISK_LIGHT, DISK_LIGHT, DISK_DARK, DISK_DARK])._colors.count DISK_LIGHT =
      (disk_state.mk [DISK_LIGHT, DISK_LIGHT, DISK_DARK, DISK_DARK])._colors.count DISK_DARK ∧
    (disk_state.mk [DISK_LIGHT, DISK_LIGHT, DISK_DARK, DISK_DARK]).is_sorted = true ∧
    (sort_left_to_right 9 ⟨[DISK_LIGHT, DISK_LIGHT, DISK_DARK, DISK_DARK]⟩).is_done = false ∧
    (sort_lawnmower 9 ⟨[DISK_LIGHT, DISK_LIGHT, DISK_DARK, DISK_DARK]⟩).is_done = false :=
  ⟨by decide, by decide, by decide, by decide,
   C7_no_swap_count_returned 9 ⟨[DISK_LIGHT, DISK_LIGHT, DISK_DARK, DISK_DARK]⟩
     (by decide) (by decide) (by decide)⟩

/-! ## The constructor, `get` and `swap` -/

/-- C8 (as stated it fails): the light count `2^63 + 1` is a `size_t`
other than `1`, yet `light_count * 2` wraps to `2` and the constructed row
is `L D`, which `is_sorted()` accepts. -/
theorem C8_wrapped_light_count_is_sorted :
    9223372036854775809 < SIZE_MOD ∧ ¬ (9223372036854775809 = 1) ∧
    disk_state.create 9223372036854775809 = some ⟨[DISK_LIGHT, DISK_DARK]⟩ ∧
    (disk_state.mk [DISK_LIGHT, DISK_DARK]).is_alternating = true ∧
    (disk_state.mk [DISK_LIGHT, DISK_DARK]).is_sorted = true := by
  decide

/-- C8 (amended): for every light count `k` with `1 ≤ k` and `2 * k` in the
range of `size_t`, the constructed row is alternating, and it is sorted
exactly when `k = 1`. -/
theorem C8_fresh_row_alternating (k : Nat) (h1 : 1 ≤ k) (hk : 2 * k < SIZE_MOD) :
    ∃ t, disk_state.create k = some t ∧ t.is_alternating = true ∧
      t.is_sorted = decide (k = 1) := by
  obtain ⟨t, ht, hlen, hcol⟩ := disk_state.create_spec k h1 hk
  refine ⟨t, ht, ?_, ?_⟩
  · rw [disk_state.is_alternating_iff]
    intro j hj
    exact hcol j (by omega)
  · by_cases hk1 : k = 1
    · subst hk1
      rw [decide_eq_true rfl, disk_state.is_sorted_iff]
      intro j hj
      rw [hlen] at hj ⊢
      rw [hcol j hj]
      have : j = 0 ∨ j = 1 := by omega
      rcases this with h | h <;> subst h <;> rfl
    · rw [decide_eq_false hk1]
      cases hs : t.is_sorted with
      | false => rfl
      | true =>
        exfalso
        rw [disk_state.is_sorted_iff] at hs
        have h3 := hs 1 (by omega)
        rw [hcol 1 (by omega), hlen, if_neg (by decide), if_pos (by omega)] at h3
        cases h3

theorem C8_fresh_row_alternating_witness :
    1 ≤ 3 ∧ 2 * 3 < SIZE_MOD ∧
    ∃ t, disk_state.create 3 = some t ∧ t.is_alternating = true ∧
      t.is_sorted = decide (3 = 1) :=
  ⟨by decide, by decide, C8_fresh_row_alternating 3 (by decide) (by decide)⟩

/-- C9 (as stated it fails): the light count `2^63` is a `size_t` other
than `0`, yet `light_count * 2` wraps to `0` and the constructor fails its
assertion. -/
theorem C9_wrapped_light_count_fails :
    9223372036854775808 < SIZE_MOD ∧ ¬ (9223372036854775808 = 0) ∧
    disk_state.create 9223372036854775808 = none := by
  decide

/-- C9 (amended): for a light count in the range of `size_t`, the
constructor fails its assertion exactly at `0` and at `2^63`, where
`light_count * 2` is `0` in `size_t`; for every `k` with `1 ≤ k` and `2 * k`
in the range of `size_t` it succeeds, with `total_count() = 2 * k`,
`dark_count() = light_count() = k`, and `get(i)` light at even and dark at odd
`i < 2 * k`. -/
theorem C9_constructor (k : Nat) (hk : k < SIZE_MOD) :
    (disk_state.create k = none ↔ k = 0 ∨ k = 9223372036854775808) ∧
    (1 ≤ k → 2 * k < SIZE_MOD →
      ∃ t, disk_state.create k = some t ∧ t.total_count = 2 * k ∧
        t.dark_count = k ∧ t.light_count = k ∧
        ∀ i, i < 2 * k → t.get i = some (if i % 2 = 0 then DISK_LIGHT else DISK_DARK)) := by
  constructor
  · have hd : (disk_state.mk (List.replicate ((k * 2) % SIZE_MOD) DISK_LIGHT)).dark_count =
        ((k * 2) % SIZE_MOD) / 2 := by
      simp [disk_state.dark_count, disk_state.total_count]
    unfold disk_state.create
    simp only [hd]
    by_cases hc : 0 < ((k * 2) % SIZE_MOD) / 2
    · rw [if_pos hc]
      simp only [false_iff, reduceCtorEq]
      rw [SIZE_MOD_eq] at *
      omega
    · rw [if_neg hc]
      simp only [true_iff]
      rw [SIZE_MOD_eq] at *
      omega
  · intro h1 h2
    obtain ⟨t, ht, hlen, hcol⟩ := disk_state.create_spec k h1 h2
    refine ⟨t, ht, hlen, ?_, ?_, ?_⟩
    · unfold disk_state.dark_count; omega
    · unfold disk_state.light_count disk_state.dark_count; omega
    · intro i hi
      rw [disk_state.get_eq_getElem?, hcol i hi]

theorem C9_constructor_witness :
    2 < SIZE_MOD ∧
    (disk_state.create 2 = none ↔ 2 = 0 ∨ 2 = 9223372036854775808) ∧
    (1 ≤ 2 → 2 * 2 < SIZE_MOD →
      ∃ t, disk_state.create 2 = some t ∧ t.total_count = 2 * 2 ∧
        t.dark_count = 2 ∧ t.light_count = 2 ∧
        ∀ i, i < 2 * 2 → t.get i = some (if i % 2 = 0 then DISK_LIGHT else DISK_DARK)) :=
  ⟨by decide, C9_constructor 2 (by decide)⟩

/-- C10: on a row whose length is in the range of `size_t`, `get(i)` fails
exactly when `i ≥ total_count()` and otherwise returns the disk in cell `i`;
`swap(i)` fails exactly when `i + 1 ≥ total_count()`, that is, succeeds
exactly when `i < total_count() - 1`; and a failing `swap` leaves the row as
it was. -/
theorem C10_get_swap_bounds (t : disk_state) (i : Nat) (hN : t.total_count < SIZE_MOD) :
    (t.get i = none ↔ t.total_count ≤ i) ∧
    (∀ h : i < t._colors.length, t.get i = some (t._colors.get ⟨i, h⟩)) ∧
    ((∃ e, t.swap i = .error e) ↔ t.total_count ≤ i + 1) ∧
    ((∃ t1, t.swap i = .ok t1) ↔ i < t.total_count - 1) ∧
    (∀ e, t.swap i = .error e → e = t) := by
  refine ⟨?_, fun h => t.get_of_lt h, ?_, ?_, fun e h => t.swap_error_eq e i h⟩
  · constructor
    · intro h
      by_contra hc
      rw [t.get_of_lt (Nat.not_le.mp hc)] at h
      cases h
    · exact fun h => t.get_of_le h
  · constructor
    · rintro ⟨e, he⟩
      by_contra hc
      obtain ⟨t1, ht1⟩ := t.swap_ok_of_lt (Nat.not_le.mp hc) (Nat.le_of_lt hN)
      rw [ht1] at he
      cases he
    · exact fun h => ⟨t, t.swap_error_of_le h hN⟩
  · constructor
    · rintro ⟨t1, ht1⟩
      by_contra hc
      rw [t.swap_error_of_le (by omega) hN] at ht1
      cases ht1
    · exact fun h => t.swap_ok_of_lt (by omega) (Nat.le_of_lt hN)

theorem C10_get_swap_bounds_witness :
    (disk_state.mk [DISK_LIGHT, DISK_DARK, DISK_LIGHT, DISK_DARK]).total_count < SIZE_MOD ∧
    ((disk_state.mk [DISK_LIGHT, DISK_DARK, DISK_LIGHT, DISK_DARK]).get 3 = none ↔
      (disk_state.mk [DISK_LIGHT, DISK_DARK, DISK_LIGHT, DISK_DARK]).total_count ≤ 3) ∧
    ((∃ e, (disk_state.mk [DISK_LIGHT, DISK_DARK, DISK_LIGHT, DISK_DARK]).swap 3 = .error e) ↔
      (disk_state.mk [DISK_LIGHT, DISK_DARK, DISK_LIGHT, DISK_DARK]).total_count ≤ 3 + 1) ∧
    (∀ e, (disk_state.mk [DISK_LIGHT, DISK_DARK, DISK_LIGHT, DISK_DARK]).swap 3 = .error e →
      e = ⟨[DISK_LIGHT, DISK_DARK, DISK_LIGHT, DISK_DARK]⟩) :=
  ⟨by decide,
   (C10_get_swap_bounds ⟨[DISK_LIGHT, DISK_DARK, DISK_LIGHT, DISK_DARK]⟩ 3 (by decide)).1,
   (C10_get_swap_bounds ⟨[DISK_LIGHT, DISK_DARK, DISK_LIGHT, DISK_DARK]⟩ 3 (by decide)).2.2.1,
   (C10_get_swap_bounds ⟨[DISK_LIGHT, DISK_DARK, DISK_LIGHT, DISK_DARK]⟩ 3 (by decide)).2.2.2.2⟩

/-! ## The effect of `swap`, cell by cell -/

namespace disk_state

/-- The row produced by a `swap` whose two cells exist. -/
theorem swap_ok_cells (t : disk_state) {i : Nat} (h : i + 1 < t.total_count)
    (hN : t.total_count ≤ SIZE_MOD) :
    ∃ t1, t.swap i = .ok t1 ∧ t1.total_count = t.total_count ∧
      t1._colors[i]? = t._colors[i + 1]? ∧ t1._colors[i + 1]? = t._colors[i]? ∧
      ∀ j, j ≠ i → j ≠ i + 1 → t1._colors[j]? = t._colors[j]? := by
  have hi : i < t._colors.length := by unfold total_count at h; omega
  have hj : i + 1 < t._colors.length := h
  have hm : (i + 1) % SIZE_MOD = i + 1 := Nat.mod_eq_of_lt (by omega)
  have h0 : i < t.total_count := hi
  refine ⟨⟨(t._colors.set i (t._colors.get ⟨i + 1, hj⟩)).set (i + 1) (t._colors.get ⟨i, hi⟩)⟩,
    ?_, ?_, ?_, ?_, ?_⟩
  · simp [swap, is_index, hm, h, h0, List.getElem?_eq_getElem hi, List.getElem?_eq_getElem hj]
  · simp [total_count]
  · show ((t._colors.set i _).set (i + 1) _)[i]? = _
    rw [List.getElem?_set, if_neg (by omega), List.getElem?_set, if_pos rfl, if_pos hi,
      List.getElem?_eq_getElem hj]
    rfl
  · show ((t._colors.set i _).set (i + 1) _)[i + 1]? = _
    rw [List.getElem?_set, if_pos rfl, if_pos (by simpa using hj), List.getElem?_eq_getElem hi]
    rfl
  · intro j hj1 hj2
    show ((t._colors.set i _).set (i + 1) _)[j]? = _
    rw [List.getElem?_set, if_neg (by omega), List.getElem?_set, if_neg (by omega)]

/-- Every row reached by a sequence of successful swaps is a permutation of
the row it started from. -/
theorem swaps_perm (t r : disk_state) (calls : List Nat) (h : t.swaps calls = some r) :
    r._colors.Perm t._colors := by
  induction calls generalizing t with
  | nil =>
    simp only [swaps, Option.some.injEq] at h
    subst h
    exact List.Perm.refl _
  | cons i rest ih =>
    rw [swaps] at h
    cases hs : t.swap i with
    | ok t1 =>
      rw [hs] at h
      exact (ih t1 h).trans (swap_ok_perm t t1 i hs)
    | error e =>
      rw [hs] at h
      cases h

end disk_state

/-! ## `operator==` -/

/-- When the right-hand range is at least as long as the left-hand one,
`std::equal` reads inside both and answers `true` exactly when the left-hand
range is a prefix of the right-hand one. -/
theorem std_equal_of_length_le (a b : List disk_color) (h : a.length ≤ b.length) :
    (∃ v, std_equal a b = some v) ∧ (std_equal a b = some true ↔ a <+: b) := by
  induction a generalizing b with
  | nil => exact ⟨⟨true, rfl⟩, by simp [std_equal]⟩
  | cons x xs ih =>
    cases b with
    | nil => simp at h
    | cons y ys =>
      have hl : xs.length ≤ ys.length := by simpa using h
      by_cases hxy : x = y
      · rw [std_equal, if_pos hxy, List.cons_prefix_cons]
        obtain ⟨hv, hiff⟩ := ih ys hl
        exact ⟨hv, by rw [hiff]; simp [hxy]⟩
      · rw [std_equal, if_neg hxy, List.cons_prefix_cons]
        exact ⟨⟨false, rfl⟩, by simp [hxy]⟩

/-- On ranges of one length `std::equal` answers whether they are equal. -/
theorem std_equal_of_length_eq (a b : List disk_color) (h : a.length = b.length) :
    std_equal a b = some (decide (a = b)) := by
  obtain ⟨⟨v, hv⟩, hiff⟩ := std_equal_of_length_le a b (Nat.le_of_eq h)
  by_cases hab : a = b
  · rw [decide_eq_true hab]
    exact hiff.mpr (hab ▸ List.prefix_refl a)
  · rw [decide_eq_false hab, hv]
    cases v with
    | false => rfl
    | true => exact absurd ((hiff.mp hv).eq_of_length h) hab

/-! ## Termination, swaps, the two predicates and equality -/

/-- C5 (the code does not meet it): on every row reached from a constructed
row (light count `k` with `1 ≤ k` and `2 * k` in the range of `size_t`) by a
finite sequence of successful swaps, `sort_left_to_right` does not terminate.
Whatever the fuel, the run has not returned and is still inside its first
inner loop, whose header increments `x` while its condition tests `y`: no
outer pass is ever completed. -/
theorem C5_left_to_right_never_terminates (k fuel : Nat) (t r : disk_state)
    (calls : List Nat) (h1 : 1 ≤ k) (hk : 2 * k < SIZE_MOD)
    (ht : disk_state.create k = some t) (hr : t.swaps calls = some r) :
    (sort_left_to_right fuel r).is_done = false ∧
    ∃ s, sort_left_to_right fuel r = .out_of_fuel s := by
  obtain ⟨t0, ht0, hlen, _⟩ := disk_state.create_spec k h1 hk
  rw [ht] at ht0
  cases ht0
  have hl : r.total_count = 2 * k :=
    (disk_state.total_count_of_perm (t.swaps_perm r calls hr)).trans hlen
  obtain ⟨s, hs, _⟩ := sort_left_to_right_diverges fuel r (by omega) (by omega)
  refine ⟨?_, s, hs⟩
  rw [hs]
  rfl

theorem C5_left_to_right_never_terminates_witness :
    1 ≤ 2 ∧ 2 * 2 < SIZE_MOD ∧
    disk_state.create 2 = some ⟨[DISK_LIGHT, DISK_DARK, DISK_LIGHT, DISK_DARK]⟩ ∧
    (disk_state.mk [DISK_LIGHT, DISK_DARK, DISK_LIGHT, DISK_DARK]).swaps [1] =
      some ⟨[DISK_LIGHT, DISK_LIGHT, DISK_DARK, DISK_DARK]⟩ ∧
    (sort_left_to_right 50 ⟨[DISK_LIGHT, DISK_LIGHT, DISK_DARK, DISK_DARK]⟩).is_done = false ∧
    ∃ s, sort_left_to_right 50 ⟨[DISK_LIGHT, DISK_LIGHT, DISK_DARK, DISK_DARK]⟩ =
      .out_of_fuel s :=
  ⟨by decide, by decide, by decide, by decide,
   C5_left_to_right_never_terminates 2 50 ⟨[DISK_LIGHT, DISK_DARK, DISK_LIGHT, DISK_DARK]⟩
     ⟨[DISK_LIGHT, DISK_LIGHT, DISK_DARK, DISK_DARK]⟩ [1]
     (by decide) (by decide) (by decide) (by decide)⟩

/-- C11: on a row whose length is in the range of `size_t`, for every `i`
with `i + 1 < total_count()`, `swap(i)` succeeds; afterwards cell `i` holds the
old disk of cell `i + 1`, cell `i + 1` the old disk of cell `i`, every other
index holds its old disk, and `total_count()` is unchanged. -/
theorem C11_swap_exchanges_two_cells (t : disk_state) (i : Nat)
    (h : i + 1 < t.total_count) (hN : t.total_count ≤ SIZE_MOD) :
    ∃ t1, t.swap i = .ok t1 ∧
      t1.get i = t.get (i + 1) ∧ t1.get (i + 1) = t.get i ∧
      (∀ j, j ≠ i → j ≠ i + 1 → t1.get j = t.get j) ∧
      t1.total_count = t.total_count := by
  obtain ⟨t1, hs, hlen, hi, hj, hrest⟩ := t.swap_ok_cells h hN
  refine ⟨t1, hs, ?_, ?_, ?_, hlen⟩
  · rw [disk_state.get_eq_getElem?, disk_state.get_eq_getElem?, hi]
  · rw [disk_state.get_eq_getElem?, disk_state.get_eq_getElem?, hj]
  · intro j h1 h2
    rw [disk_state.get_eq_getElem?, disk_state.get_eq_getElem?, hrest j h1 h2]

theorem C11_swap_exchanges_two_cells_witness :
    1 + 1 < (disk_state.mk [DISK_LIGHT, DISK_DARK, DISK_LIGHT, DISK_DARK]).total_count ∧
    (disk_state.mk [DISK_LIGHT, DISK_DARK, DISK_LIGHT, DISK_DARK]).total_count ≤ SIZE_MOD ∧
    ∃ t1, (disk_state.mk [DISK_LIGHT, DISK_DARK, DISK_LIGHT, DISK_DARK]).swap 1 = .ok t1 ∧
      t1.get 1 = (disk_state.mk [DISK_LIGHT, DISK_DARK, DISK_LIGHT, DISK_DARK]).get (1 + 1) ∧
      t1.get (1 + 1) = (disk_state.mk [DISK_LIGHT, DISK_DARK, DISK_LIGHT, DISK_DARK]).get 1 ∧
      (∀ j, j ≠ 1 → j ≠ 1 + 1 →
        t1.get j = (disk_state.mk [DISK_LIGHT, DISK_DARK, DISK_LIGHT, DISK_DARK]).get j) ∧
      t1.total_count = (disk_state.mk [DISK_LIGHT, DISK_DARK, DISK_LIGHT, DISK_DARK]).total_count :=
  ⟨by decide, by decide,
   C11_swap_exchanges_two_cells ⟨[DISK_LIGHT, DISK_DARK, DISK_LIGHT, DISK_DARK]⟩ 1
     (by decide) (by decide)⟩

/-- C12 (as stated it fails): the light count `2^63 + 1` is at least `1`,
and the row it constructs (reached by the empty sequence of swaps) has
`2` disks, not `2 * (2^63 + 1)`. -/
theorem C12_wrapped_light_count_length :
    1 ≤ 9223372036854775809 ∧
    disk_state.create 9223372036854775809 = some ⟨[DISK_LIGHT, DISK_DARK]⟩ ∧
    (disk_state.mk [DISK_LIGHT, DISK_DARK]).swaps [] = some ⟨[DISK_LIGHT, DISK_DARK]⟩ ∧
    (disk_state.mk [DISK_LIGHT, DISK_DARK]).total_count ≠ 2 * 9223372036854775809 := by
  decide

/-- C12 (amended): for every light count `k` with `1 ≤ k` and `2 * k` in the
range of `size_t`, every row reached from the constructed row by a finite
sequence of successful swaps has the even length `N = 2 * k` and holds
exactly `N / 2` light and `N / 2` dark disks. -/
theorem C12_reachable_rows_balanced (k : Nat) (t r : disk_state) (calls : List Nat)
    (h1 : 1 ≤ k) (hk : 2 * k < SIZE_MOD) (ht : disk_state.create k = some t)
    (hr : t.swaps calls = some r) :
    r.total_count = 2 * k ∧ r.total_count % 2 = 0 ∧
    r._colors.count DISK_LIGHT = r.total_count / 2 ∧
    r._colors.count DISK_DARK = r.total_count / 2 := by
  obtain ⟨t0, ht0, hlen, _⟩ := disk_state.create_spec k h1 hk
  rw [ht] at ht0
  cases ht0
  obtain ⟨hcl, hcd⟩ := disk_state.create_count k t hk ht
  have hp := t.swaps_perm r calls hr
  have hl : r.total_count = 2 * k := (disk_state.total_count_of_perm hp).trans hlen
  refine ⟨hl, by omega, ?_, ?_⟩
  · rw [hp.count_eq, hcl, hl]; omega
  · rw [hp.count_eq, hcd, hl]; omega

theorem C12_reachable_rows_balanced_witness :
    1 ≤ 2 ∧ 2 * 2 < SIZE_MOD ∧
    disk_state.create 2 = some ⟨[DISK_LIGHT, DISK_DARK, DISK_LIGHT, DISK_DARK]⟩ ∧
    (disk_state.mk [DISK_LIGHT, DISK_DARK, DISK_LIGHT, DISK_DARK]).swaps [1, 0, 2, 1] =
      some ⟨[DISK_LIGHT, DISK_DARK, DISK_LIGHT, DISK_DARK]⟩ ∧
    (disk_state.mk [DISK_LIGHT, DISK_DARK, DISK_LIGHT, DISK_DARK]).total_count = 2 * 2 ∧
    (disk_state.mk [DISK_LIGHT, DISK_DARK, DISK_LIGHT, DISK_DARK]).total_count % 2 = 0 ∧
    (disk_state.mk [DISK_LIGHT, DISK_DARK, DISK_LIGHT, DISK_DARK])._colors.count DISK_LIGHT =
      (disk_state.mk [DISK_LIGHT, DISK_DARK, DISK_LIGHT, DISK_DARK]).total_count / 2 ∧
    (disk_state.mk [DISK_LIGHT, DISK_DARK, DISK_LIGHT, DISK_DARK])._colors.count DISK_DARK =
      (disk_state.mk [DISK_LIGHT, DISK_DARK, DISK_LIGHT, DISK_DARK]).total_count / 2 :=
  ⟨by decide, by decide, by decide, by decide,
   C12_reachable_rows_balanced 2 ⟨[DISK_LIGHT, DISK_DARK, DISK_LIGHT, DISK_DARK]⟩
     ⟨[DISK_LIGHT, DISK_DARK, DISK_LIGHT, DISK_DARK]⟩ [1, 0, 2, 1]
     (by decide) (by decide) (by decide) (by decide)⟩

/-- C13: `is_sorted()` is `true` exactly when every index below
`total_count() / 2` holds a light disk and every index from
`total_count() / 2` up to `total_count()` holds a dark disk. -/
theorem C13_is_sorted_characterised (t : disk_state) :
    t.is_sorted = true ↔
      (∀ i, i < t.total_count / 2 → t.get i = some DISK_LIGHT) ∧
      (∀ i, t.total_count / 2 ≤ i → i < t.total_count → t.get i = some DISK_DARK) := by
  rw [disk_state.is_sorted_iff]
  constructor
  · intro h
    constructor
    · intro i hi
      rw [disk_state.get_eq_getElem?, h i (by omega), if_pos hi]
    · intro i hi1 hi2
      rw [disk_state.get_eq_getElem?, h i hi2, if_neg (by omega)]
  · rintro ⟨hl, hd⟩ j hj
    by_cases hc : j < t.total_count / 2
    · rw [if_pos hc, ← disk_state.get_eq_getElem?]
      exact hl j hc
    · rw [if_neg hc, ← disk_state.get_eq_getElem?]
      exact hd j (by omega) hj

/-- C14: `is_alternating()` is `true` exactly when every even index below
`total_count()` holds a light disk and every odd index below `total_count()`
holds a dark disk. -/
theorem C14_is_alternating_characterised (t : disk_state) :
    t.is_alternating = true ↔
      (∀ i, i < t.total_count → i % 2 = 0 → t.get i = some DISK_LIGHT) ∧
      (∀ i, i < t.total_count → i % 2 = 1 → t.get i = some DISK_DARK) := by
  rw [disk_state.is_alternating_iff]
  constructor
  · intro h
    constructor
    · intro i hi hp
      rw [disk_state.get_eq_getElem?, h i hi, if_pos hp]
    · intro i hi hp
      rw [disk_state.get_eq_getElem?, h i hi, if_neg (by omega)]
  · rintro ⟨hl, hd⟩ j hj
    by_cases hc : j % 2 = 0
    · rw [if_pos hc, ← disk_state.get_eq_getElem?]
      exact hl j hj hc
    · rw [if_neg hc, ← disk_state.get_eq_getElem?]
      exact hd j hj (by omega)

theorem disk_state.ext_colors {a b : disk_state} (h : a._colors = b._colors) : a = b := by
  cases a; cases b; cases h; rfl

/-- On rows of one length `operator==` answers whether the rows are equal. -/
theorem disk_state.operator_eq_of_length_eq (a b : disk_state)
    (h : a.total_count = b.total_count) : a.operator_eq b = some (decide (a = b)) := by
  unfold disk_state.operator_eq
  rw [std_equal_of_length_eq a._colors b._colors h]
  by_cases hab : a = b
  · rw [decide_eq_true hab, decide_eq_true (congrArg disk_state._colors hab)]
  · rw [decide_eq_false hab, decide_eq_false (fun hc => hab (disk_state.ext_colors hc))]

/-- A successful `swap(i)` on a row whose length is in the range of `size_t`
has both cells `i` and `i + 1`. -/
theorem disk_state.lt_of_swap_ok (t t1 : disk_state) (i : Nat)
    (hN : t.total_count < SIZE_MOD) (h : t.swap i = .ok t1) : i + 1 < t.total_count := by
  by_contra hc
  rw [t.swap_error_of_le (by omega) hN] at h
  cases h

/-- C15: for two rows `a` and `b` of one length, `a == b` has a value, and it
is `true` exactly when `get(i)` agrees on `a` and `b` at every index; hence
two rows built with one light count compare equal; and when `b` is the result
of a successful `swap(i)` on `a`, `a == b` is `false` exactly when `a.get(i)`
and `a.get(i+1)` differ. -/
theorem C15_operator_eq_equal_length (a b : disk_state)
    (h : a.total_count = b.total_count) :
    (∃ v, a.operator_eq b = some v) ∧
    (a.operator_eq b = some true ↔ ∀ i, a.get i = b.get i) ∧
    (∀ k, disk_state.create k = some a → disk_state.create k = some b →
      a.operator_eq b = some true) ∧
    (∀ i, a.total_count < SIZE_MOD → a.swap i = .ok b →
      (a.operator_eq b = some false ↔ a.get i ≠ a.get (i + 1))) := by
  have hv := disk_state.operator_eq_of_length_eq a b h
  refine ⟨⟨_, hv⟩, ?_, ?_, ?_⟩
  · rw [hv]
    constructor
    · intro hd i
      have hab : a = b := of_decide_eq_true (Option.some.inj hd)
      rw [hab]
    · intro hall
      have hab : a = b := by
        apply disk_state.ext_colors
        apply List.ext_getElem?
        intro n
        rw [← disk_state.get_eq_getElem?, ← disk_state.get_eq_getElem?]
        exact hall n
      rw [decide_eq_true hab]
  · intro k ha hb
    have hab : a = b := Option.some.inj (ha.symm.trans hb)
    rw [hv, decide_eq_true hab]
  · intro i hN hs
    have hlt := a.lt_of_swap_ok b i hN hs
    obtain ⟨t1, hs1, _, hi, hj, hrest⟩ := a.swap_ok_cells hlt (Nat.le_of_lt hN)
    rw [hs] at hs1
    cases hs1
    rw [hv, disk_state.get_eq_getElem?, disk_state.get_eq_getElem?]
    constructor
    · intro hd hget
      have hab : ¬ a = b := of_decide_eq_false (Option.some.inj hd)
      apply hab
      apply disk_state.ext_colors
      apply List.ext_getElem?
      intro n
      by_cases hn1 : n = i
      · subst hn1; rw [hi, hget]
      · by_cases hn2 : n = i + 1
        · subst hn2; rw [hj, hget]
        · rw [hrest n hn1 hn2]
    · intro hne
      have hab : ¬ a = b := by
        intro hab
        apply hne
        rw [← hi, hab]
      rw [decide_eq_false hab]

theorem C15_operator_eq_equal_length_witness :
    (disk_state.mk [DISK_LIGHT, DISK_DARK, DISK_LIGHT, DISK_DARK]).total_count =
      (disk_state.mk [DISK_LIGHT, DISK_LIGHT, DISK_DARK, DISK_DARK]).total_count ∧
    (disk_state.mk [DISK_LIGHT, DISK_DARK, DISK_LIGHT, DISK_DARK]).swap 1 =
      .ok ⟨[DISK_LIGHT, DISK_LIGHT, DISK_DARK, DISK_DARK]⟩ ∧
    ((disk_state.mk [DISK_LIGHT, DISK_DARK, DISK_LIGHT, DISK_DARK]).operator_eq
        ⟨[DISK_LIGHT, DISK_LIGHT, DISK_DARK, DISK_DARK]⟩ = some false ↔
      (disk_state.mk [DISK_LIGHT, DISK_DARK, DISK_LIGHT, DISK_DARK]).get 1 ≠
        (disk_state.mk [DISK_LIGHT, DISK_DARK, DISK_LIGHT, DISK_DARK]).get (1 + 1)) :=
  ⟨by decide, by rfl,
   (C15_operator_eq_equal_length ⟨[DISK_LIGHT, DISK_DARK, DISK_LIGHT, DISK_DARK]⟩
      ⟨[DISK_LIGHT, DISK_LIGHT, DISK_DARK, DISK_DARK]⟩ (by decide)).2.2.2 1 (by decide) (by rfl)⟩

/-- C17 (the code does not meet it): on the alternating row built for a
light count `k` with `1 ≤ k` and `2 * k < 2^31`, the backward loop of
`sort_lawnmower` starts at `z = total_count()`, so its first iteration
passes the index `total_count()` to `get`, which fails the assertion, whatever
the local state the forward loop left; with fuel for one forward loop the
whole call ends in that failed assertion. -/
theorem C17_backward_sweep_out_of_bounds (k : Nat) (h1 : 1 ≤ k) (hk : 2 * k < 2 ^ 31) :
    ∃ t, disk_state.create k = some t ∧ t.total_count = 2 * k ∧
      to_size (to_int t.total_count) = t.total_count ∧
      t.get (to_size (to_int t.total_count)) = none ∧
      (∀ fuel s, s.temporary.total_count = t.total_count →
        lawn_backward (fuel + 1) (to_int s.temporary.total_count) s = .assert_failed s) ∧
      (sort_lawnmower (2 * k) t).is_assert_failed = true := by
  have hk2 : 2 * k < SIZE_MOD := by
    rw [SIZE_MOD_eq]; norm_num at hk; omega
  obtain ⟨t, ht, hlen, _⟩ := disk_state.create_spec k h1 hk2
  have hidx : to_size (to_int t.total_count) = t.total_count := by
    rw [to_int_of_lt (by omega), to_size_natCast (by omega)]
  refine ⟨t, ht, hlen, hidx, ?_, ?_, ?_⟩
  · rw [hidx]
    exact t.get_of_le (Nat.le_refl _)
  · intro fuel s hs
    exact lawn_backward_failed fuel s (by omega) (by omega)
  · obtain ⟨s, hs, _⟩ := sort_lawnmower_failed (2 * k) t (by omega) (by omega) (by omega)
    rw [hs]
    rfl

theorem C17_backward_sweep_out_of_bounds_witness :
    1 ≤ 1 ∧ 2 * 1 < 2 ^ 31 ∧
    ∃ t, disk_state.create 1 = some t ∧ t.total_count = 2 * 1 ∧
      to_size (to_int t.total_count) = t.total_count ∧
      t.get (to_size (to_int t.total_count)) = none ∧
      (∀ fuel s, s.temporary.total_count = t.total_count →
        lawn_backward (fuel + 1) (to_int s.temporary.total_count) s = .assert_failed s) ∧
      (sort_lawnmower (2 * 1) t).is_assert_failed = true :=
  ⟨by decide, by decide, C17_backward_sweep_out_of_bounds 1 (by decide) (by decide)⟩

/-! ## Rows without an out-of-order pair -/

/-- A list in which no dark disk is immediately followed by a light disk is
a block of light disks followed by a block of dark disks. -/
theorem eq_blocks_of_no_descent (l : List disk_color)
    (h : ∀ i, ¬ (l[i]? = some DISK_DARK ∧ l[i + 1]? = some DISK_LIGHT)) :
    l = List.replicate (l.count DISK_LIGHT) DISK_LIGHT ++
      List.replicate (l.count DISK_DARK) DISK_DARK := by
  induction l with
  | nil => rfl
  | cons c tl ih =>
    have htl : ∀ i, ¬ (tl[i]? = some DISK_DARK ∧ tl[i + 1]? = some DISK_LIGHT) := by
      intro i hi
      exact h (i + 1) (by simpa using hi)
    have e := ih htl
    cases c with
    | DISK_LIGHT =>
      have c1 : (DISK_LIGHT :: tl).count DISK_LIGHT = tl.count DISK_LIGHT + 1 := by
        simp [List.count_cons]
      have c2 : (DISK_LIGHT :: tl).count DISK_DARK = tl.count DISK_DARK := by
        simp [List.count_cons]
      rw [c1, c2, List.replicate_succ, List.cons_append, ← e]
    | DISK_DARK =>
      have c1 : (DISK_DARK :: tl).count DISK_LIGHT = tl.count DISK_LIGHT := by
        simp [List.count_cons]
      have c2 : (DISK_DARK :: tl).count DISK_DARK = tl.count DISK_DARK + 1 := by
        simp [List.count_cons]
      have hz : tl.count DISK_LIGHT = 0 := by
        cases ha : tl.count DISK_LIGHT with
        | zero => rfl
        | succ a =>
          exfalso
          rw [ha, List.replicate_succ, List.cons_append] at e
          apply h 0
          rw [e]
          exact ⟨by simp, by simp⟩
      rw [c1, c2, hz, List.replicate_succ]
      rw [hz] at e
      simpa using e

/-- For a row with as many light disks as half its length, `is_sorted()`
answers whether no dark disk is immediately followed by a light disk. -/
theorem disk_state.is_sorted_iff_no_descent (t : disk_state)
    (hL : t._colors.count DISK_LIGHT = t.total_count / 2) :
    t.is_sorted = true ↔
      ∀ i, ¬ (t._colors[i]? = some DISK_DARK ∧ t._colors[i + 1]? = some DISK_LIGHT) := by
  rw [disk_state.is_sorted_iff]
  constructor
  · rintro hs i ⟨h1, h2⟩
    have hi1 : i + 1 < t.total_count := by
      by_contra hc
      rw [List.getElem?_eq_none (Nat.not_lt.mp hc)] at h2
      cases h2
    have e1 := hs i (by omega)
    have e2 := hs (i + 1) hi1
    rw [h1] at e1
    rw [h2] at e2
    by_cases hc : i < t.total_count / 2
    · rw [if_pos hc] at e1; cases e1
    · rw [if_neg (by omega)] at e2; cases e2
  · intro hn j hj
    have e := eq_blocks_of_no_descent t._colors hn
    have hlen : t.total_count =
        t._colors.count DISK_LIGHT + t._colors.count DISK_DARK :=
      length_eq_count_add_count t._colors
    rw [e, List.getElem?_append, List.length_replicate, hL]
    by_cases hc : j < t.total_count / 2
    · rw [if_pos hc, if_pos hc, List.getElem?_replicate, if_pos hc]
    · rw [if_neg hc, if_neg hc, List.getElem?_replicate, if_pos (by omega)]

/-! ## Sortedness by adjacent pairs, and equality with a constructed row -/

/-- C18: for a row holding exactly `total_count() / 2` light and
`total_count() / 2` dark disks (so of even length), `is_sorted()` is `true`
exactly when no index `i < total_count() - 1` has `get(i)` dark and
`get(i+1)` light; and that pair of colours is the only one for which the
condition `get(i) > get(i+1)` of the sorting loops holds. -/
theorem C18_sorted_iff_no_adjacent_inversion (t : disk_state)
    (hL : t._colors.count DISK_LIGHT = t.total_count / 2)
    (hD : t._colors.count DISK_DARK = t.total_count / 2) :
    (t.total_count % 2 = 0) ∧
    (t.is_sorted = true ↔
      ¬ ∃ i, i < t.total_count - 1 ∧ t.get i = some DISK_DARK ∧
        t.get (i + 1) = some DISK_LIGHT) ∧
    (∀ a b : disk_color, a.val > b.val ↔ a = DISK_DARK ∧ b = DISK_LIGHT) := by
  have hlen : t.total_count =
      t._colors.count DISK_LIGHT + t._colors.count DISK_DARK :=
    length_eq_count_add_count t._colors
  refine ⟨by omega, ?_, ?_⟩
  · rw [disk_state.is_sorted_iff_no_descent t hL]
    constructor
    · rintro h ⟨i, _, h1, h2⟩
      rw [disk_state.get_eq_getElem?] at h1 h2
      exact h i ⟨h1, h2⟩
    · rintro h i ⟨h1, h2⟩
      have hi1 : i + 1 < t.total_count := by
        by_contra hc
        rw [List.getElem?_eq_none (Nat.not_lt.mp hc)] at h2
        cases h2
      apply h
      refine ⟨i, by omega, ?_, ?_⟩
      · rw [disk_state.get_eq_getElem?]; exact h1
      · rw [disk_state.get_eq_getElem?]; exact h2
  · intro a b
    cases a <;> cases b <;> simp [disk_color.val]

theorem C18_sorted_iff_no_adjacent_inversion_witness :
    (disk_state.mk [DISK_LIGHT, DISK_DARK, DISK_LIGHT, DISK_DARK])._colors.count DISK_LIGHT =
      (disk_state.mk [DISK_LIGHT, DISK_DARK, DISK_LIGHT, DISK_DARK]).total_count / 2 ∧
    (disk_state.mk [DISK_LIGHT, DISK_DARK, DISK_LIGHT, DISK_DARK])._colors.count DISK_DARK =
      (disk_state.mk [DISK_LIGHT, DISK_DARK, DISK_LIGHT, DISK_DARK]).total_count / 2 ∧
    ((disk_state.mk [DISK_LIGHT, DISK_DARK, DISK_LIGHT, DISK_DARK]).is_sorted = true ↔
      ¬ ∃ i, i < (disk_state.mk [DISK_LIGHT, DISK_DARK, DISK_LIGHT, DISK_DARK]).total_count - 1 ∧
        (disk_state.mk [DISK_LIGHT, DISK_DARK, DISK_LIGHT, DISK_DARK]).get i = some DISK_DARK ∧
        (disk_state.mk [DISK_LIGHT, DISK_DARK, DISK_LIGHT, DISK_DARK]).get (i + 1) =
          some DISK_LIGHT) :=
  ⟨by decide, by decide,
   (C18_sorted_iff_no_adjacent_inversion ⟨[DISK_LIGHT, DISK_DARK, DISK_LIGHT, DISK_DARK]⟩
      (by decide) (by decide)).2.1⟩

/-- C19: for a row `r` of even length `N ≥ 2` (in the range of `size_t`),
the constructor succeeds on `N / 2`, and `r.is_alternating()` is `true`
exactly when `r == disk_state(N / 2)` is `true`. -/
theorem C19_alternating_iff_equals_constructed (r : disk_state)
    (h2 : 2 ≤ r.total_count) (hev : r.total_count % 2 = 0)
    (hN : r.total_count < SIZE_MOD) :
    ∃ d, disk_state.create (r.total_count / 2) = some d ∧
      (r.is_alternating = true ↔ r.operator_eq d = some true) := by
  obtain ⟨d, hd, hlen, hcol⟩ :=
    disk_state.create_spec (r.total_count / 2) (by omega) (by omega)
  have hlen1 : r.total_count = d.total_count := by omega
  refine ⟨d, hd, ?_⟩
  rw [disk_state.operator_eq_of_length_eq r d hlen1, disk_state.is_alternating_iff]
  constructor
  · intro h
    have hrd : r = d := by
      apply disk_state.ext_colors
      apply List.ext_getElem?
      intro n
      by_cases hn : n < r.total_count
      · rw [h n hn, hcol n (by omega)]
      · rw [List.getElem?_eq_none (Nat.not_lt.mp hn),
          List.getElem?_eq_none (by rw [← disk_state.total_count, ← hlen1]; omega)]
    rw [decide_eq_true hrd]
  · intro h j hj
    have hrd : r = d := of_decide_eq_true (Option.some.inj h)
    rw [hrd]
    exact hcol j (by omega)

theorem C19_alternating_iff_equals_constructed_witness :
    2 ≤ (disk_state.mk [DISK_LIGHT, DISK_LIGHT, DISK_DARK, DISK_DARK]).total_count ∧
    (disk_state.mk [DISK_LIGHT, DISK_LIGHT, DISK_DARK, DISK_DARK]).total_count % 2 = 0 ∧
    (disk_state.mk [DISK_LIGHT, DISK_LIGHT, DISK_DARK, DISK_DARK]).total_count < SIZE_MOD ∧
    ∃ d, disk_state.create
        ((disk_state.mk [DISK_LIGHT, DISK_LIGHT, DISK_DARK, DISK_DARK]).total_count / 2) = some d ∧
      ((disk_state.mk [DISK_LIGHT, DISK_LIGHT, DISK_DARK, DISK_DARK]).is_alternating = true ↔
        (disk_state.mk [DISK_LIGHT, DISK_LIGHT, DISK_DARK, DISK_DARK]).operator_eq d = some true) :=
  ⟨by decide, by decide, by decide,
   C19_alternating_iff_equals_constructed ⟨[DISK_LIGHT, DISK_LIGHT, DISK_DARK, DISK_DARK]⟩
     (by decide) (by decide) (by decide)⟩

/-- C20 (as stated it fails): the light counts `2` and `2^63 + 1` satisfy
`1 ≤ 2 ≤ 2^63 + 1`, but the second row is `L D`, shorter than the first,
`L D L D`; the comparison agrees on two cells and then reads past the end of
the right-hand row, so it is not `true`. -/
theorem C20_wrapped_light_count_comparison :
    1 ≤ 2 ∧ 2 ≤ 9223372036854775809 ∧ 9223372036854775809 < SIZE_MOD ∧
    disk_state.create 2 = some ⟨[DISK_LIGHT, DISK_DARK, DISK_LIGHT, DISK_DARK]⟩ ∧
    disk_state.create 9223372036854775809 = some ⟨[DISK_LIGHT, DISK_DARK]⟩ ∧
    (disk_state.mk [DISK_LIGHT, DISK_DARK, DISK_LIGHT, DISK_DARK]).operator_eq
      ⟨[DISK_LIGHT, DISK_DARK]⟩ = none := by
  decide

/-- C20 (amended): for rows `a` and `b` with
`a.total_count() ≤ b.total_count()`, `a == b` has a value, and it is `true`
exactly when the disks of `a` are a prefix of the disks of `b`; in particular
`disk_state(j) == disk_state(k)` is `true` for all `1 ≤ j ≤ k` with `2 * k` in
the range of `size_t`, also when `j ≠ k`. -/
theorem C20_operator_eq_compares_left_range (a b : disk_state) (h : a.total_count ≤ b.total_count) :
    (∃ v, a.operator_eq b = some v) ∧
    (a.operator_eq b = some true ↔ a._colors <+: b._colors) ∧
    (∀ j k, 1 ≤ j → j ≤ k → 2 * k < SIZE_MOD →
      ∃ c d, disk_state.create j = some c ∧ disk_state.create k = some d ∧
        c.operator_eq d = some true) := by
  obtain ⟨hv, hiff⟩ := std_equal_of_length_le a._colors b._colors h
  refine ⟨hv, hiff, ?_⟩
  intro j k h1 hjk hk
  obtain ⟨c, hc, hclen, hccol⟩ := disk_state.create_spec j h1 (by omega)
  obtain ⟨d, hd, hdlen, hdcol⟩ := disk_state.create_spec k (by omega) hk
  refine ⟨c, d, hc, hd, ?_⟩
  have hcl : c._colors.length = 2 * j := hclen
  have hdl : d._colors.length = 2 * k := hdlen
  apply (std_equal_of_length_le c._colors d._colors (by omega)).2.mpr
  rw [List.prefix_iff_eq_take]
  apply List.ext_getElem?
  intro n
  rw [List.getElem?_take, hcl]
  by_cases hn : n < 2 * j
  · rw [if_pos hn, hccol n hn, hdcol n (by omega)]
  · rw [if_neg hn, List.getElem?_eq_none (by omega)]

theorem C20_operator_eq_compares_left_range_witness :
    (disk_state.mk [DISK_LIGHT, DISK_DARK]).total_count ≤
      (disk_state.mk [DISK_LIGHT, DISK_DARK, DISK_LIGHT, DISK_DARK]).total_count ∧
    ((disk_state.mk [DISK_LIGHT, DISK_DARK]).operator_eq
        ⟨[DISK_LIGHT, DISK_DARK, DISK_LIGHT, DISK_DARK]⟩ = some true ↔
      (disk_state.mk [DISK_LIGHT, DISK_DARK])._colors <+:
        (disk_state.mk [DISK_LIGHT, DISK_DARK, DISK_LIGHT, DISK_DARK])._colors) ∧
    (disk_state.mk [DISK_LIGHT, DISK_DARK]).operator_eq
      ⟨[DISK_LIGHT, DISK_DARK, DISK_LIGHT, DISK_DARK]⟩ = some true :=
  ⟨by decide,
   (C20_operator_eq_compares_left_range ⟨[DISK_LIGHT, DISK_DARK]⟩
      ⟨[DISK_LIGHT, DISK_DARK, DISK_LIGHT, DISK_DARK]⟩ (by decide)).2.1,
   by decide⟩

end AlternatingDisks
